import Mathlib

/-!
Verification of the FalkorDB Go client codec (`internal/proto` and `result.go`)
against its natural-language specification.

The Go code decodes dynamically typed Redis replies (`interface{}` values).
We embed those dynamic values as the inductive `RawValue`:
Go `nil`, `bool`, `int`, `int64`, `float64`, `string` and `[]interface{}`
each get a constructor.  Go `float64` payloads are modelled by their exact
rational value (`Rat`); float-to-int conversion truncates toward zero, which
matches Go's conversion for in-range values.  Partial Go operations
(runtime panics such as out-of-range slice indexing) are modelled with
`Option`, `none` standing for a panic; fallible decoders that return Go
errors are modelled with `Except String`.
-/

namespace FalkorDBGo

/-- A dynamically typed Go value as produced by the Redis transport
(`interface{}`).  `vInt` is Go `int`, `vInt64` is Go `int64` (both 64-bit on
the platforms this client targets), `vFloat` is Go `float64` modelled by its
exact rational value, `vSeq` is `[]interface{}`. -/
inductive RawValue where
  | vNil
  | vBool (b : Bool)
  | vInt (n : Int)
  | vInt64 (n : Int)
  | vFloat (q : Rat)
  | vStr (s : String)
  | vSeq (xs : List RawValue)

mutual
/-- An executable structural size for raw values, used to compute a
sufficient fuel for the decoder's recursion. -/
def sizeRV : RawValue → Nat
  | .vSeq xs => 1 + sizeRVList xs
  | _ => 1

def sizeRVList : List RawValue → Nat
  | [] => 0
  | x :: xs => sizeRV x + sizeRVList xs
end

/-- The `%T` rendering of the dynamic type of a value, used in Go error
messages built with `fmt.Errorf`. -/
def typeName : RawValue → String
  | .vNil => "<nil>"
  | .vBool _ => "bool"
  | .vInt _ => "int"
  | .vInt64 _ => "int64"
  | .vFloat _ => "float64"
  | .vStr _ => "string"
  | .vSeq _ => "[]interface \x7b\x7d"

/-- Sign handling of Go `strconv.ParseInt`: an optional single leading
`-` or `+`, returning (negative?, remaining characters). -/
def stripSign : List Char → Bool × List Char
  | [] => (false, [])
  | c :: cs =>
    if c = '-' then (true, cs)
    else if c = '+' then (false, cs)
    else (false, c :: cs)

/-- Base-10 digit string to its numeric value; `none` unless the list is
nonempty and consists only of decimal digits (Go `strconv` syntax error
otherwise). -/
def digitsToNatAux : List Char → Nat → Option Nat
  | [], acc => some acc
  | c :: cs, acc =>
    if c.isDigit then digitsToNatAux cs (acc * 10 + (c.toNat - '0'.toNat))
    else none

def digitsToNat? : List Char → Option Nat
  | [] => none
  | l => digitsToNatAux l 0

/-- Clamping to the `int64` range, as `strconv.ParseInt` does on range
overflow (it returns `math.MaxInt64` / `math.MinInt64` together with
`ErrRange`; the callers here discard the error and keep the value). -/
def clampInt64 (x : Int) : Int := max (-(2 ^ 63)) (min (2 ^ 63 - 1) x)

/-- Model of `i, _ := strconv.ParseInt(s, 10, 64)`: the value returned when
the error is discarded.  Syntax errors yield 0; range errors yield the
clamped value. -/
def goParseInt64 (s : String) : Int :=
  let p := stripSign s.data
  match digitsToNat? p.2 with
  | none => 0
  | some n => clampInt64 (if p.1 then -(n : Int) else (n : Int))

/-- Truncation toward zero, the semantics of Go's float-to-integer
conversion for in-range values. -/
def ratTrunc (q : Rat) : Int := if 0 ≤ q then q.floor else -((-q).floor)

/-- Model of `f, _ := strconv.ParseFloat(s, 64)` restricted to plain decimal
syntax (optional sign, digits, optional fraction, optional decimal
exponent); the value is kept as an exact rational, IEEE rounding is not
modelled.  Inputs outside this syntax yield 0.  No verified claim evaluates
this function. -/
def goParseFloat (s : String) : Rat :=
  let p := stripSign s.data
  let intPart := p.2.takeWhile (fun c => c.isDigit)
  let rest := p.2.dropWhile (fun c => c.isDigit)
  let fracPart :=
    match rest with
    | '.' :: r => r.takeWhile (fun c => c.isDigit)
    | _ => []
  let rest2 :=
    match rest with
    | '.' :: r => r.dropWhile (fun c => c.isDigit)
    | _ => rest
  let hasExp : Bool := match rest2 with | 'e' :: _ => true | 'E' :: _ => true | _ => false
  let expTail := match rest2 with | _ :: r => stripSign r | [] => (false, [])
  let expDigits := expTail.2.takeWhile (fun c => c.isDigit)
  let rest3 := if hasExp then expTail.2.dropWhile (fun c => c.isDigit) else rest2
  if intPart = [] ∧ fracPart = [] then 0
  else if rest3 ≠ [] then 0
  else if hasExp ∧ expDigits = [] then 0
  else
    match digitsToNatAux (intPart ++ fracPart) 0 with
    | none => 0
    | some m =>
      let base : Rat := (m : Rat) / ((10 : Rat) ^ fracPart.length)
      let signed := if p.1 then -base else base
      if hasExp then
        match digitsToNatAux expDigits 0 with
        | none => 0
        | some e =>
          if expTail.1 then signed / ((10 : Rat) ^ e) else signed * ((10 : Rat) ^ e)
      else signed

/-- Rendering of a `float64` by `fmt.Sprint`.  Go prints the shortest
decimal that round-trips; that IEEE-specific formatting is abstracted here
as the rational's own rendering.  No verified claim evaluates `ToString`
on a float. -/
def floatSprint (q : Rat) : String := toString q

/-- Model of `fmt.Sprint` on a single dynamically typed value (`%v` formatting). -/
def goSprint : RawValue → String
  | .vNil => "<nil>"
  | .vBool b => if b then "true" else "false"
  | .vInt n => toString n
  | .vInt64 n => toString n
  | .vFloat q => floatSprint q
  | .vStr s => s
  | .vSeq xs =>
    "[" ++ String.intercalate " " (xs.attach.map fun x => goSprint x.1) ++ "]"
termination_by v => sizeOf v
decreasing_by
  simp_wf
  have h := List.sizeOf_lt_of_mem x.2
  omega

/-- Model of `proto.ToInt`: convert `interface{}` to Go `int` (64-bit here).
`strconv.Atoi` has the same discarded-error semantics as `ParseInt`. -/
def ToInt : RawValue → Int
  | .vInt n => n
  | .vInt64 n => n
  | .vFloat q => ratTrunc q
  | .vStr s => goParseInt64 s
  | _ => 0

/-- Model of `proto.ToInt64`: convert `interface{}` to `int64`. -/
def ToInt64 : RawValue → Int
  | .vInt n => n
  | .vInt64 n => n
  | .vFloat q => ratTrunc q
  | .vStr s => goParseInt64 s
  | _ => 0

/-- Model of `proto.ToFloat64`: convert `interface{}` to `float64` (floats modelled
as exact rationals; `float64(int)` rounding above 2^53 is not modelled). -/
def ToFloat64 : RawValue → Rat
  | .vFloat q => q
  | .vInt n => (n : Rat)
  | .vInt64 n => (n : Rat)
  | .vStr s => goParseFloat s
  | _ => 0

/-- Model of `proto.ToString`: convert `interface{}` to string. -/
def ToString : RawValue → String
  | .vNil => ""
  | .vStr s => s
  | v => goSprint v

/-! ### Literal serializer and argument builder (`internal/proto/args.go`) -/

/-- A query parameter value (`interface{}` handed to `ValueToString`).
The integer case collapses Go's `int`/`int8`/.../`uint64` cases (all are
printed by `fmt.Sprint` as their decimal value); floats are modelled as
exact rationals as above. -/
inductive PVal where
  | pnull
  | pstr (s : String)
  | pint (n : Int)
  | pfloat (q : Rat)
  | pbool (b : Bool)
  | plist (xs : List PVal)
  | pmap (kvs : List (String × PVal))

/-- Model of `strings.ReplaceAll` specialised to a single-character pattern: every
occurrence of `c` is replaced by `rep` (for one-character patterns the
occurrences are exactly the character positions, so this is the full
`ReplaceAll` semantics). -/
def replaceChar (c : Char) (rep : List Char) : List Char → List Char
  | [] => []
  | x :: xs =>
    if x = c then rep ++ replaceChar c rep xs else x :: replaceChar c rep xs

def goReplaceAllChar (s : String) (c : Char) (rep : String) : String :=
  ⟨replaceChar c rep.data s.data⟩

mutual
/-- An executable structural size for parameter values, used to compute a
sufficient fuel for the serializer's recursion. -/
def sizePV : PVal → Nat
  | .plist xs => 1 + sizePVList xs
  | .pmap kvs => 1 + sizePVPairs kvs
  | _ => 1

def sizePVList : List PVal → Nat
  | [] => 0
  | x :: xs => sizePV x + sizePVList xs

def sizePVPairs : List (String × PVal) → Nat
  | [] => 0
  | kv :: kvs => sizePV kv.2 + sizePVPairs kvs
end

mutual

/-- Fueled `proto.ValueToString`: render a parameter value as a Cypher
literal.  Go iterates map entries in unspecified order; `pmap`/`plist` fix
the order of the model's list.  The fuel decreases at every recursive call
and is saturated by the wrapper below. -/
def ValueToStringF : Nat → PVal → String
  | 0, _ => ""
  | fuel + 1, v =>
    match v with
    | .pnull => "null"
    | .pstr s =>
      "\"" ++ goReplaceAllChar (goReplaceAllChar s '\\' "\\\\") '"' "\\\"" ++ "\""
    | .pint n => toString n
    | .pfloat q => floatSprint q
    | .pbool b => if b then "true" else "false"
    | .plist xs => "[" ++ String.intercalate "," (valueListStringsF fuel xs) ++ "]"
    | .pmap kvs => "\x7b" ++ String.intercalate "," (valueMapStringsF fuel kvs) ++ "\x7d"
termination_by structural fuel => fuel

/-- The item loop of the `[]interface{}` case of `ValueToString`. -/
def valueListStringsF : Nat → List PVal → List String
  | 0, _ => []
  | _ + 1, [] => []
  | fuel + 1, x :: xs => ValueToStringF fuel x :: valueListStringsF fuel xs
termination_by structural fuel => fuel

/-- The entry loop of the `map[string]interface{}` case of `ValueToString`. -/
def valueMapStringsF : Nat → List (String × PVal) → List String
  | 0, _ => []
  | _ + 1, [] => []
  | fuel + 1, kv :: kvs =>
    (kv.1 ++ ":" ++ ValueToStringF fuel kv.2) :: valueMapStringsF fuel kvs
termination_by structural fuel => fuel

end

/-- Canonical `proto.ValueToString` with saturated fuel. -/
def ValueToString (v : PVal) : String := ValueToStringF (2 * sizePV v + 1) v

/-- The escaping described by the spec for the Literal Serializer, stated
character-wise: every backslash becomes a double backslash and every double
quote becomes backslash-quote (used to check `ValueToString` against the
spec's wording). -/
def escapeList : List Char → List Char
  | [] => []
  | c :: cs =>
    if c = '\\' then '\\' :: '\\' :: escapeList cs
    else if c = '"' then '\\' :: '"' :: escapeList cs
    else c :: escapeList cs

def specEscape (s : String) : String := ⟨escapeList s.data⟩

/-- Model of `proto.paramsToString`: space-joined `key=literal` pairs.  The Go map's
iteration order is unspecified; the model serialises in list order. -/
def paramsToString (params : List (String × PVal)) : String :=
  String.intercalate " " (params.map fun kv => kv.1 ++ "=" ++ ValueToString kv.2)

/-- Model of `proto.BuildQueryArgs`.  `params` is `Option`-wrapped to distinguish the
Go `nil` map (the produced argument values are all strings, so the result
is a `List String`). -/
def BuildQueryArgs (cmd graph query : String) (params : Option (List (String × PVal)))
    (timeout : Int) (compact : Bool) : List String :=
  let query :=
    match params with
    | some ps =>
      if ps.length > 0 then "CYPHER " ++ paramsToString ps ++ " " ++ query else query
    | none => query
  let args := [cmd, graph, query]
  let args := if timeout > 0 then args ++ ["TIMEOUT", toString timeout] else args
  if compact then args ++ ["--compact"] else args

/-! ### Reply splitter (`proto.ParseResult`) -/

/-- Model of `proto.RawResult`; the `Option` distinguishes Go's `nil` slices for
`Headers` and `Data`. -/
structure RawResult where
  headers : Option (List RawValue)
  data : Option (List RawValue)
  metadata : List String

/-- Model of `proto.toStringSlice`. -/
def toStringSlice (v : RawValue) : Except String (List String) :=
  match v with
  | .vSeq xs => .ok (xs.map ToString)
  | _ => .error ("expected array, got " ++ typeName v)

/-- The two-valued type assertion `x.([]interface{})` used for the header
and data elements: the slice when `x` is one, Go `nil` otherwise. -/
def seqOrNull (v : RawValue) : Option (List RawValue) :=
  match v with
  | .vSeq xs => some xs
  | _ => none

/-- Model of `proto.ParseResult`: classify a raw reply by arity. -/
def ParseResult (v : RawValue) : Except String RawResult :=
  match v with
  | .vSeq arr =>
    match arr with
    | [a0] =>
      (toStringSlice a0).map fun md => ⟨none, none, md⟩
    | [a0, a1, a2] =>
      (toStringSlice a2).map fun md => ⟨seqOrNull a0, seqOrNull a1, md⟩
    | _ => .error ("unexpected query result length: " ++ toString arr.length)
  | _ => .error ("unexpected query result format: " ++ typeName v)

/-! ### Dictionary cache (`resultParser` state, `result.go`) -/

/-- The mutable dictionary tables of `resultParser`. -/
structure ParserState where
  labels : List String
  relTypes : List String
  propertyKeys : List String

/-- Model of `resultParser.updateMetadata`: a `nil` argument (modelled `none`) leaves
the corresponding table unchanged; a non-nil one replaces it wholesale. -/
def updateMetadata (st : ParserState) (labels relTypes propertyKeys : Option (List String)) :
    ParserState where
  labels := match labels with | some l => l | none => st.labels
  relTypes := match relTypes with | some r => r | none => st.relTypes
  propertyKeys := match propertyKeys with | some k => k | none => st.propertyKeys

/-- Label-index resolution as inlined in `parseNode` (result.go:157-163):
`if labelIdx < len(p.labels)` guards only the upper bound, so a negative
index reaches `p.labels[labelIdx]` and panics at runtime; the panic is
modelled by `none`. -/
def resolveLabel (labels : List String) (i : Int) : Option String :=
  if i < (labels.length : Int) then
    if h : 0 ≤ i ∧ i.toNat < labels.length then some (labels.get ⟨i.toNat, h.2⟩)
    else none
  else some ("label_" ++ toString i)

/-- Relationship-type resolution as inlined in `parseEdge`
(result.go:188-193); `none` models the index-out-of-range panic. -/
def resolveRelType (relTypes : List String) (i : Int) : Option String :=
  if i < (relTypes.length : Int) then
    if h : 0 ≤ i ∧ i.toNat < relTypes.length then some (relTypes.get ⟨i.toNat, h.2⟩)
    else none
  else some ("type_" ++ toString i)

/-- Property-key resolution as inlined in `parseProperties`
(result.go:312-318); `none` models the index-out-of-range panic. -/
def resolvePropertyKey (propertyKeys : List String) (i : Int) : Option String :=
  if i < (propertyKeys.length : Int) then
    if h : 0 ≤ i ∧ i.toNat < propertyKeys.length then
      some (propertyKeys.get ⟨i.toNat, h.2⟩)
    else none
  else some ("prop_" ++ toString i)

/-! ### Decoded values (`QueryResult` cell values, `Node`, `Edge`, `Path`, `Point`) -/

/-- Model of `falkordb.Point` (result.go / types); coordinates are `float64`,
modelled as exact rationals. -/
structure GoPoint where
  latitude : Rat
  longitude : Rat

mutual
/-- A decoded cell value, i.e. the dynamic `interface{}` returned by
`parseValue`.  `Option` inside `node`/`edge`/`path`/`point`/`arr`/`map`
models the corresponding Go `nil` pointer or `nil` slice/map result;
`raw` is the unchanged pass-through of the default and non-tagged cases. -/
inductive GoValue where
  | null
  | str (s : String)
  | int (n : Int)
  | bool (b : Bool)
  | float (q : Rat)
  | node (n : Option GoNode)
  | edge (e : Option GoEdge)
  | path (p : Option GoPath)
  | point (pt : Option GoPoint)
  | arr (xs : Option (List GoValue))
  | map (m : Option (List (String × GoValue)))
  | raw (v : RawValue)

/-- Model of `falkordb.Node`. -/
inductive GoNode where
  | mk (id : Int) (labels : List String) (properties : List (String × GoValue))

/-- Model of `falkordb.Edge`. -/
inductive GoEdge where
  | mk (id : Int) (relationshipType : String) (sourceId : Int) (destinationId : Int)
      (properties : List (String × GoValue))

/-- Model of `falkordb.Path`. -/
inductive GoPath where
  | mk (nodes : List GoNode) (edges : List GoEdge)
end

def GoNode.id : GoNode → Int
  | .mk i _ _ => i

def GoNode.labels : GoNode → List String
  | .mk _ ls _ => ls

def GoNode.properties : GoNode → List (String × GoValue)
  | .mk _ _ ps => ps

def GoPath.nodes : GoPath → List GoNode
  | .mk ns _ => ns

def GoPath.edges : GoPath → List GoEdge
  | .mk _ es => es

/-- A Go `map[string]interface{}` viewed as a finite mapping.  Go's
iteration order is unspecified; the model keeps keys in first-insertion
order, and `mapSet` (assignment `m[k] = v`) overwrites an existing
binding in place. -/
abbrev GoProps := List (String × GoValue)

def mapSet (m : GoProps) (k : String) (v : GoValue) : GoProps :=
  match m with
  | [] => [(k, v)]
  | (k', v') :: rest => if k' = k then (k, v) :: rest else (k', v') :: mapSet rest k v

def mapGet (m : GoProps) (k : String) : Option GoValue :=
  match m with
  | [] => none
  | (k', v') :: rest => if k' = k then some v' else mapGet rest k

def mapKeys (m : GoProps) : List String := m.map fun kv => kv.1

/-! ### Value-type tags (`proto.ValueType`) -/

def ValueTypeUnknown : Int := 0
def ValueTypeNull : Int := 1
def ValueTypeString : Int := 2
def ValueTypeInteger : Int := 3
def ValueTypeBoolean : Int := 4
def ValueTypeDouble : Int := 5
def ValueTypeArray : Int := 6
def ValueTypeEdge : Int := 7
def ValueTypeNode : Int := 8
def ValueTypePath : Int := 9
def ValueTypeMap : Int := 10
def ValueTypePoint : Int := 11

/-! ### The typed value decoder (`result.go`) -/

/-- Model of `resultParser.parsePoint`; `none` is the Go `nil` result for a
malformed payload. -/
def parsePoint (v : RawValue) : Option GoPoint :=
  match v with
  | .vSeq (a0 :: a1 :: _) => some ⟨ToFloat64 a0, ToFloat64 a1⟩
  | _ => none

/-- The label loop of `parseNode` (result.go:156-163): resolve every label
index in order; `none` models the panic on a negative index. -/
def parseNodeLabels (labels : List String) : List RawValue → Option (List String)
  | [] => some []
  | l :: rest =>
    match resolveLabel labels (ToInt l) with
    | none => none
    | some s => (parseNodeLabels labels rest).map fun ss => s :: ss

/-- Model of `unwrapArray` (result.go:254-261): extract the inner item list from a
`[ArrayType, [...items]]` wrapper; `none` is the Go `nil` slice result
(wrapper not a sequence, too short, or inner element not a sequence). -/
def unwrapArray (w : RawValue) : Option (List RawValue) :=
  match w with
  | .vSeq (_ :: a1 :: _) =>
    match a1 with
    | .vSeq items => some items
    | _ => none
  | _ => none

/-- Model of `unwrapTypedValue` (result.go:264-270): extract the payload from a
`[Type, data]` pair, Go `nil` (here `.vNil`) when the shape is wrong. -/
def unwrapTypedValue (v : RawValue) : RawValue :=
  match v with
  | .vSeq (_ :: d :: _) => d
  | _ => .vNil

/-- The `data != nil` test of the path item loops. -/
def RawValue.isNil : RawValue → Bool
  | .vNil => true
  | _ => false

/-- The Boolean branch of `parseValue` (result.go:101-105): a Go `bool`
payload is returned as is, anything else compares its string form with
`"true"`. -/
def parseBoolValue (v : RawValue) : Bool :=
  match v with
  | .vBool b => b
  | _ => ToString v == "true"

/-- The `if labels, ok := arr[1].([]interface{}); ok` label step of
`parseNode`: a non-sequence leaves the node's label list empty (Go `nil`
slice). -/
def parseNodeLabelsArg (st : ParserState) (a : RawValue) : Option (List String) :=
  match a with
  | .vSeq ls => parseNodeLabels st.labels ls
  | _ => some []

/-!
The typed value decoder is mutually recursive through arbitrarily nested
containers, which Lean cannot accept as structural recursion over the
nested `RawValue` type.  Each decoder function therefore takes an explicit
`fuel : Nat` that every call decrements (structural recursion on `fuel`);
`none` at fuel 0 is unreachable from the wrappers below, which supply a
fuel that provably dominates the recursion depth (`parseF_stable`).
The wrappers carry the source functions' names and are the objects the
theorems speak about.
-/

mutual

/-- Fueled `resultParser.parseValue`: dispatch a tagged cell on its type
code.  `none` models a runtime panic arising from a negative dictionary
index inside node/edge/property decoding (or exhausted fuel). -/
def parseValueF : Nat → ParserState → Int → RawValue → Option GoValue
  | 0, _, _, _ => none
  | fuel + 1, st, t, v =>
    if t = ValueTypeNull then some .null
    else if t = ValueTypeString then some (.str (ToString v))
    else if t = ValueTypeInteger then some (.int (ToInt64 v))
    else if t = ValueTypeBoolean then some (.bool (parseBoolValue v))
    else if t = ValueTypeDouble then some (.float (ToFloat64 v))
    else if t = ValueTypeArray then (parseArrayF fuel st v).map GoValue.arr
    else if t = ValueTypeNode then (parseNodeF fuel st v).map GoValue.node
    else if t = ValueTypeEdge then (parseEdgeF fuel st v).map GoValue.edge
    else if t = ValueTypePath then (parsePathF fuel st v).map GoValue.path
    else if t = ValueTypeMap then (parseMapF fuel st v).map GoValue.map
    else if t = ValueTypePoint then some (.point (parsePoint v))
    else some (.raw v)
termination_by structural fuel => fuel

/-- Fueled `resultParser.parseArray`; inner `none` is the Go `nil` slice
returned for a non-sequence payload. -/
def parseArrayF : Nat → ParserState → RawValue → Option (Option (List GoValue))
  | 0, _, _ => none
  | fuel + 1, st, v =>
    match v with
    | .vSeq xs => (parseArrayItemsF fuel st xs).map some
    | _ => some none
termination_by structural fuel => fuel

/-- Fueled element loop of `parseArray` (result.go:132-139). -/
def parseArrayItemsF : Nat → ParserState → List RawValue → Option (List GoValue)
  | 0, _, _ => none
  | fuel + 1, st, xs =>
    match xs with
    | [] => some []
    | item :: rest =>
      match parseArrayItemF fuel st item with
      | none => none
      | some g => (parseArrayItemsF fuel st rest).map fun gs => g :: gs
termination_by structural fuel => fuel

/-- One iteration of the `parseArray` loop: a 2-element tagged item is
decoded through `parseValue`, anything else kept unchanged. -/
def parseArrayItemF : Nat → ParserState → RawValue → Option GoValue
  | 0, _, _ => none
  | fuel + 1, st, item =>
    match item with
    | .vSeq (i0 :: i1 :: _) => parseValueF fuel st (ToInt i0) i1
    | _ => some (.raw item)
termination_by structural fuel => fuel

/-- Fueled `resultParser.parseNode`; `some none` is the Go `nil` node
returned for a payload that is not a sequence of at least 3 elements. -/
def parseNodeF : Nat → ParserState → RawValue → Option (Option GoNode)
  | 0, _, _ => none
  | fuel + 1, st, v =>
    match v with
    | .vSeq (a0 :: a1 :: a2 :: _) => parseNodeBodyF fuel st a0 a1 a2
    | _ => some none
termination_by structural fuel => fuel

/-- The body of `parseNode` on a well-shaped payload `[a0, a1, a2, ...]`:
id from `a0`, labels resolved from `a1`, properties decoded from `a2`. -/
def parseNodeBodyF : Nat → ParserState → RawValue → RawValue → RawValue →
    Option (Option GoNode)
  | 0, _, _, _, _ => none
  | fuel + 1, st, a0, a1, a2 =>
    match parseNodeLabelsArg st a1 with
    | none => none
    | some lbls =>
      (parsePropsArgF fuel st a2).map fun props => some (.mk (ToInt64 a0) lbls props)
termination_by structural fuel => fuel

/-- The `if props, ok := arr[i].([]interface{}); ok` property step shared
by `parseNode` (arr[2]) and `parseEdge` (arr[4]): a non-sequence leaves
the fresh empty property map. -/
def parsePropsArgF : Nat → ParserState → RawValue → Option GoProps
  | 0, _, _ => none
  | fuel + 1, st, a =>
    match a with
    | .vSeq ps => parsePropertiesAuxF fuel st ps []
    | _ => some []
termination_by structural fuel => fuel

/-- Fueled property loop of `parseProperties` (result.go:306-322). -/
def parsePropertiesAuxF : Nat → ParserState → List RawValue → GoProps → Option GoProps
  | 0, _, _, _ => none
  | fuel + 1, st, xs, acc =>
    match xs with
    | [] => some acc
    | prop :: rest =>
      match parsePropStepF fuel st prop with
      | none => none
      | some none => parsePropertiesAuxF fuel st rest acc
      | some (some kg) => parsePropertiesAuxF fuel st rest (mapSet acc kg.1 kg.2)
termination_by structural fuel => fuel

/-- One iteration of the property loop: a triple that is not a sequence of
at least 3 elements is skipped (`some none`); otherwise it is resolved and
decoded by `parsePropEntry`. -/
def parsePropStepF : Nat → ParserState → RawValue → Option (Option (String × GoValue))
  | 0, _, _ => none
  | fuel + 1, st, prop =>
    match prop with
    | .vSeq (p0 :: p1 :: p2 :: _) => (parsePropEntryF fuel st p0 p1 p2).map some
    | _ => some none
termination_by structural fuel => fuel

/-- One property triple `[keyIndex, typeCode, value]`: the key index is
resolved through the property-key table (panicking on a negative index,
modelled `none`), then the value decoded by `parseValue`. -/
def parsePropEntryF : Nat → ParserState → RawValue → RawValue → RawValue →
    Option (String × GoValue)
  | 0, _, _, _, _ => none
  | fuel + 1, st, p0, p1, p2 =>
    match resolvePropertyKey st.propertyKeys (ToInt p0) with
    | none => none
    | some key => (parseValueF fuel st (ToInt p1) p2).map fun g => (key, g)
termination_by structural fuel => fuel

/-- Fueled `resultParser.parseEdge`; `some none` is the Go `nil` edge
returned for a payload that is not a sequence of at least 5 elements. -/
def parseEdgeF : Nat → ParserState → RawValue → Option (Option GoEdge)
  | 0, _, _ => none
  | fuel + 1, st, v =>
    match v with
    | .vSeq (a0 :: a1 :: a2 :: a3 :: a4 :: _) => parseEdgeBodyF fuel st a0 a1 a2 a3 a4
    | _ => some none
termination_by structural fuel => fuel

/-- The body of `parseEdge` on a well-shaped payload: id, relationship
type resolved from `a1` (panic on a negative index modelled `none`),
source/destination ids, properties from `a4`. -/
def parseEdgeBodyF : Nat → ParserState → RawValue → RawValue → RawValue → RawValue →
    RawValue → Option (Option GoEdge)
  | 0, _, _, _, _, _, _ => none
  | fuel + 1, st, a0, a1, a2, a3, a4 =>
    match resolveRelType st.relTypes (ToInt a1) with
    | none => none
    | some rt =>
      (parsePropsArgF fuel st a4).map fun props =>
        some (.mk (ToInt64 a0) rt (ToInt64 a2) (ToInt64 a3) props)
termination_by structural fuel => fuel

/-- Fueled `resultParser.parsePath`; `some none` is the Go `nil` path for
a payload that is not a sequence of at least 2 elements. -/
def parsePathF : Nat → ParserState → RawValue → Option (Option GoPath)
  | 0, _, _ => none
  | fuel + 1, st, v =>
    match v with
    | .vSeq (w0 :: w1 :: _) => parsePathBodyF fuel st w0 w1
    | _ => some none
termination_by structural fuel => fuel

/-- The body of `parsePath`: nodes from wrapper `w0`, edges from `w1`. -/
def parsePathBodyF : Nat → ParserState → RawValue → RawValue → Option (Option GoPath)
  | 0, _, _, _ => none
  | fuel + 1, st, w0, w1 =>
    match parsePathNodesF fuel st w0 with
    | none => none
    | some ns => (parsePathEdgesF fuel st w1).map fun es => some (.mk ns es)
termination_by structural fuel => fuel

/-- Fueled `resultParser.parsePathNodes`: unwrap the `[ArrayType, [...]]`
node wrapper (the match is `unwrapArray` inlined) and decode the items; a
`nil` item list yields the empty node list. -/
def parsePathNodesF : Nat → ParserState → RawValue → Option (List GoNode)
  | 0, _, _ => none
  | fuel + 1, st, w =>
    match w with
    | .vSeq (_ :: .vSeq items :: _) => parsePathNodesListF fuel st items
    | _ => some []
termination_by structural fuel => fuel

/-- Fueled item loop of `parsePathNodes` (result.go:225-231): each decoded
node is kept in order; `some none` from the item step means the item was
skipped. -/
def parsePathNodesListF : Nat → ParserState → List RawValue → Option (List GoNode)
  | 0, _, _ => none
  | fuel + 1, st, xs =>
    match xs with
    | [] => some []
    | item :: rest =>
      match parsePathNodeItemF fuel st item with
      | none => none
      | some none => parsePathNodesListF fuel st rest
      | some (some n) => (parsePathNodesListF fuel st rest).map fun ns => n :: ns
termination_by structural fuel => fuel

/-- One path node item: `unwrapTypedValue` then the `data != nil` guard
then `parseNode`; `some none` covers both a skipped item (bad envelope,
`nil` payload) and a `nil` parse result. -/
def parsePathNodeItemF : Nat → ParserState → RawValue → Option (Option GoNode)
  | 0, _, _ => none
  | fuel + 1, st, item =>
    match item with
    | .vSeq (_ :: d :: _) => if d.isNil then some none else parseNodeF fuel st d
    | _ => some none
termination_by structural fuel => fuel

/-- Fueled `resultParser.parsePathEdges`, symmetric to `parsePathNodes`. -/
def parsePathEdgesF : Nat → ParserState → RawValue → Option (List GoEdge)
  | 0, _, _ => none
  | fuel + 1, st, w =>
    match w with
    | .vSeq (_ :: .vSeq items :: _) => parsePathEdgesListF fuel st items
    | _ => some []
termination_by structural fuel => fuel

/-- Fueled item loop of `parsePathEdges` (result.go:243-249). -/
def parsePathEdgesListF : Nat → ParserState → List RawValue → Option (List GoEdge)
  | 0, _, _ => none
  | fuel + 1, st, xs =>
    match xs with
    | [] => some []
    | item :: rest =>
      match parsePathEdgeItemF fuel st item with
      | none => none
      | some none => parsePathEdgesListF fuel st rest
      | some (some e) => (parsePathEdgesListF fuel st rest).map fun es => e :: es
termination_by structural fuel => fuel

/-- One path edge item, symmetric to `parsePathNodeItem`. -/
def parsePathEdgeItemF : Nat → ParserState → RawValue → Option (Option GoEdge)
  | 0, _, _ => none
  | fuel + 1, st, item =>
    match item with
    | .vSeq (_ :: d :: _) => if d.isNil then some none else parseEdgeF fuel st d
    | _ => some none
termination_by structural fuel => fuel

/-- Fueled `resultParser.parseMap`; inner `none` is the Go `nil` map for a
non-sequence payload. -/
def parseMapF : Nat → ParserState → RawValue → Option (Option GoProps)
  | 0, _, _ => none
  | fuel + 1, st, v =>
    match v with
    | .vSeq xs => (parseMapPairsF fuel st xs []).map some
    | _ => some none
termination_by structural fuel => fuel

/-- Fueled pair loop of `parseMap` (result.go:279-287): the loop condition
`i < len(arr)-1` processes only complete key/value pairs, ignoring a
trailing odd element. -/
def parseMapPairsF : Nat → ParserState → List RawValue → GoProps → Option GoProps
  | 0, _, _, _ => none
  | fuel + 1, st, xs, acc =>
    match xs with
    | [] => some acc
    | [_] => some acc
    | k :: vv :: rest =>
      match parseMapValueF fuel st vv with
      | none => none
      | some g => parseMapPairsF fuel st rest (mapSet acc (ToString k) g)
termination_by structural fuel => fuel

/-- One map value: a 2-element tagged value is decoded through
`parseValue`, anything else stored unchanged. -/
def parseMapValueF : Nat → ParserState → RawValue → Option GoValue
  | 0, _, _ => none
  | fuel + 1, st, vv =>
    match vv with
    | .vSeq (v0 :: v1 :: _) => parseValueF fuel st (ToInt v0) v1
    | _ => some (.raw vv)
termination_by structural fuel => fuel

end

/-! The canonical (fuel-saturated) decoder functions, named after the
source functions.  Each supplies a fuel that dominates the recursion
depth from its argument, so the fuel-exhaustion branch is unreachable
(`parseF_stable` below makes this precise). -/

def parseValue (st : ParserState) (t : Int) (v : RawValue) : Option GoValue :=
  parseValueF (4 * sizeRV v + 3) st t v

def parseArray (st : ParserState) (v : RawValue) : Option (Option (List GoValue)) :=
  parseArrayF (4 * sizeRV v + 2) st v

def parseArrayItems (st : ParserState) (xs : List RawValue) : Option (List GoValue) :=
  parseArrayItemsF (4 * sizeRVList xs + 3) st xs

def parseArrayItem (st : ParserState) (item : RawValue) : Option GoValue :=
  parseArrayItemF (4 * sizeRV item + 2) st item

def parseNode (st : ParserState) (v : RawValue) : Option (Option GoNode) :=
  parseNodeF (4 * sizeRV v + 2) st v

def parseNodeBody (st : ParserState) (a0 a1 a2 : RawValue) : Option (Option GoNode) :=
  parseNodeBodyF (4 * (sizeRV a1 + sizeRV a2) + 3) st a0 a1 a2

def parsePropsArg (st : ParserState) (a : RawValue) : Option GoProps :=
  parsePropsArgF (4 * sizeRV a + 2) st a

def parsePropertiesAux (st : ParserState) (xs : List RawValue) (acc : GoProps) :
    Option GoProps :=
  parsePropertiesAuxF (4 * sizeRVList xs + 3) st xs acc

def parsePropStep (st : ParserState) (prop : RawValue) :
    Option (Option (String × GoValue)) :=
  parsePropStepF (4 * sizeRV prop + 2) st prop

def parsePropEntry (st : ParserState) (p0 p1 p2 : RawValue) : Option (String × GoValue) :=
  parsePropEntryF (4 * sizeRV p2 + 4) st p0 p1 p2

def parseEdge (st : ParserState) (v : RawValue) : Option (Option GoEdge) :=
  parseEdgeF (4 * sizeRV v + 2) st v

def parseEdgeBody (st : ParserState) (a0 a1 a2 a3 a4 : RawValue) :
    Option (Option GoEdge) :=
  parseEdgeBodyF (4 * sizeRV a4 + 3) st a0 a1 a2 a3 a4

def parsePath (st : ParserState) (v : RawValue) : Option (Option GoPath) :=
  parsePathF (4 * sizeRV v + 2) st v

def parsePathBody (st : ParserState) (w0 w1 : RawValue) : Option (Option GoPath) :=
  parsePathBodyF (4 * (sizeRV w0 + sizeRV w1) + 3) st w0 w1

def parsePathNodes (st : ParserState) (w : RawValue) : Option (List GoNode) :=
  parsePathNodesF (4 * sizeRV w + 2) st w

def parsePathNodesList (st : ParserState) (xs : List RawValue) : Option (List GoNode) :=
  parsePathNodesListF (4 * sizeRVList xs + 3) st xs

def parsePathNodeItem (st : ParserState) (item : RawValue) : Option (Option GoNode) :=
  parsePathNodeItemF (4 * sizeRV item + 2) st item

def parsePathEdges (st : ParserState) (w : RawValue) : Option (List GoEdge) :=
  parsePathEdgesF (4 * sizeRV w + 2) st w

def parsePathEdgesList (st : ParserState) (xs : List RawValue) : Option (List GoEdge) :=
  parsePathEdgesListF (4 * sizeRVList xs + 3) st xs

def parsePathEdgeItem (st : ParserState) (item : RawValue) : Option (Option GoEdge) :=
  parsePathEdgeItemF (4 * sizeRV item + 2) st item

def parseMap (st : ParserState) (v : RawValue) : Option (Option GoProps) :=
  parseMapF (4 * sizeRV v + 2) st v

def parseMapPairs (st : ParserState) (xs : List RawValue) (acc : GoProps) :
    Option GoProps :=
  parseMapPairsF (4 * sizeRVList xs + 3) st xs acc

def parseMapValue (st : ParserState) (vv : RawValue) : Option GoValue :=
  parseMapValueF (4 * sizeRV vv + 2) st vv

/-! ### Row assembly (`resultParser.parseRow`) -/

/-- Model of `falkordb.Header`. -/
structure Header where
  typeCode : Int
  name : String

/-- The column name used for position `i` (result.go:75-80): the header's
name when one exists at that position, else `"column_<i>"`. -/
def rowColumnName (headers : List Header) (i : Nat) : String :=
  match headers.get? i with
  | some h => h.name
  | none => "column_" ++ toString i

/-- The per-cell logic of `parseRow` (result.go:82-87): a 2-element tagged
cell is decoded through `parseValue`, anything else is stored unchanged. -/
def decodeCell (st : ParserState) (cell : RawValue) : Option GoValue :=
  match cell with
  | .vSeq (c0 :: c1 :: _) => parseValue st (ToInt c0) c1
  | _ => some (.raw cell)

/-- The cell loop of `parseRow`, with `i` the current column position. -/
def parseRowAux (st : ParserState) (headers : List Header) :
    Nat → List RawValue → GoProps → Option GoProps
  | _, [], acc => some acc
  | i, cell :: rest, acc =>
    match decodeCell st cell with
    | none => none
    | some g => parseRowAux st headers (i + 1) rest (mapSet acc (rowColumnName headers i) g)

/-- Model of `resultParser.parseRow`. -/
def parseRow (st : ParserState) (row : List RawValue) (headers : List Header) :
    Option GoProps :=
  parseRowAux st headers 0 row []

/-- Characterization helper for the row map: the cell of the highest-index
column at or after position `i` whose resolved column name is `name`. -/
def lastMatchCell (headers : List Header) : Nat → List RawValue → String → Option RawValue
  | _, [], _ => none
  | i, c :: rest, name =>
    match lastMatchCell headers (i + 1) rest name with
    | some c' => some c'
    | none => if rowColumnName headers i = name then some c else none

/-! ### Lemmas -/

theorem sizeRV_vSeq (xs : List RawValue) : sizeRV (.vSeq xs) = 1 + sizeRVList xs := by
  simp [sizeRV]

theorem sizeRVList_nil : sizeRVList [] = 0 := by
  simp [sizeRVList]

theorem sizeRVList_cons (x : RawValue) (xs : List RawValue) :
    sizeRVList (x :: xs) = sizeRV x + sizeRVList xs := by
  simp [sizeRVList]

theorem sizeRV_pos (v : RawValue) : 1 ≤ sizeRV v := by
  cases v <;> simp [sizeRV]

/-!
Fuel stability: each fueled decoder function gives the same result for any
two fuels that dominate the stated bound on its input (so the canonical
functions above are the common value, and the fuel-exhaustion branch is
unreachable from them).
-/

set_option maxHeartbeats 3200000 in
mutual

theorem parseValueF_stable : ∀ f g st t v, 4 * sizeRV v + 3 ≤ f → 4 * sizeRV v + 3 ≤ g →
    parseValueF f st t v = parseValueF g st t v := by
  intro f g st t v hf hg
  obtain ⟨f', rfl⟩ : ∃ k, f = k + 1 := ⟨f - 1, by omega⟩
  obtain ⟨g', rfl⟩ : ∃ k, g = k + 1 := ⟨g - 1, by omega⟩
  simp only [parseValueF]
  rw [parseArrayF_stable f' g' st v (by omega) (by omega),
    parseNodeF_stable f' g' st v (by omega) (by omega),
    parseEdgeF_stable f' g' st v (by omega) (by omega),
    parsePathF_stable f' g' st v (by omega) (by omega),
    parseMapF_stable f' g' st v (by omega) (by omega)]
termination_by f => f

theorem parseArrayF_stable : ∀ f g st v, 4 * sizeRV v + 2 ≤ f → 4 * sizeRV v + 2 ≤ g →
    parseArrayF f st v = parseArrayF g st v := by
  intro f g st v hf hg
  obtain ⟨f', rfl⟩ : ∃ k, f = k + 1 := ⟨f - 1, by omega⟩
  obtain ⟨g', rfl⟩ : ∃ k, g = k + 1 := ⟨g - 1, by omega⟩
  rcases v with _ | b | n | m | q | str | xs <;> try rfl
  simp only [sizeRV_vSeq] at hf hg
  simp only [parseArrayF]
  rw [parseArrayItemsF_stable f' g' st xs (by omega) (by omega)]
termination_by f => f

theorem parseArrayItemsF_stable : ∀ f g st xs, 4 * sizeRVList xs + 3 ≤ f →
    4 * sizeRVList xs + 3 ≤ g → parseArrayItemsF f st xs = parseArrayItemsF g st xs := by
  intro f g st xs hf hg
  obtain ⟨f', rfl⟩ : ∃ k, f = k + 1 := ⟨f - 1, by omega⟩
  obtain ⟨g', rfl⟩ : ∃ k, g = k + 1 := ⟨g - 1, by omega⟩
  rcases xs with _ | ⟨item, rest⟩
  · rfl
  · simp only [sizeRVList_cons] at hf hg
    have hit := sizeRV_pos item
    simp only [parseArrayItemsF]
    rw [parseArrayItemF_stable f' g' st item (by omega) (by omega),
      parseArrayItemsF_stable f' g' st rest (by omega) (by omega)]
termination_by f => f

theorem parseArrayItemF_stable : ∀ f g st item, 4 * sizeRV item + 2 ≤ f →
    4 * sizeRV item + 2 ≤ g → parseArrayItemF f st item = parseArrayItemF g st item := by
  intro f g st item hf hg
  obtain ⟨f', rfl⟩ : ∃ k, f = k + 1 := ⟨f - 1, by omega⟩
  obtain ⟨g', rfl⟩ : ∃ k, g = k + 1 := ⟨g - 1, by omega⟩
  rcases item with _ | b | n | m | q | str | xs <;> try rfl
  rcases xs with _ | ⟨i0, _ | ⟨i1, t⟩⟩ <;> try rfl
  simp only [sizeRV_vSeq, sizeRVList_cons] at hf hg
  have h0 := sizeRV_pos i0
  simp only [parseArrayItemF]
  rw [parseValueF_stable f' g' st (ToInt i0) i1 (by omega) (by omega)]
termination_by f => f

theorem parseNodeF_stable : ∀ f g st v, 4 * sizeRV v + 2 ≤ f → 4 * sizeRV v + 2 ≤ g →
    parseNodeF f st v = parseNodeF g st v := by
  intro f g st v hf hg
  obtain ⟨f', rfl⟩ : ∃ k, f = k + 1 := ⟨f - 1, by omega⟩
  obtain ⟨g', rfl⟩ : ∃ k, g = k + 1 := ⟨g - 1, by omega⟩
  rcases v with _ | b | n | m | q | str | xs <;> try rfl
  rcases xs with _ | ⟨a0, _ | ⟨a1, _ | ⟨a2, t⟩⟩⟩ <;> try rfl
  simp only [sizeRV_vSeq, sizeRVList_cons] at hf hg
  have h0 := sizeRV_pos a0
  simp only [parseNodeF]
  rw [parseNodeBodyF_stable f' g' st a0 a1 a2 (by omega) (by omega)]
termination_by f => f

theorem parseNodeBodyF_stable : ∀ f g st a0 a1 a2, 4 * (sizeRV a1 + sizeRV a2) + 3 ≤ f →
    4 * (sizeRV a1 + sizeRV a2) + 3 ≤ g →
    parseNodeBodyF f st a0 a1 a2 = parseNodeBodyF g st a0 a1 a2 := by
  intro f g st a0 a1 a2 hf hg
  obtain ⟨f', rfl⟩ : ∃ k, f = k + 1 := ⟨f - 1, by omega⟩
  obtain ⟨g', rfl⟩ : ∃ k, g = k + 1 := ⟨g - 1, by omega⟩
  simp only [parseNodeBodyF]
  rw [parsePropsArgF_stable f' g' st a2 (by omega) (by omega)]
termination_by f => f

theorem parsePropsArgF_stable : ∀ f g st a, 4 * sizeRV a + 2 ≤ f → 4 * sizeRV a + 2 ≤ g →
    parsePropsArgF f st a = parsePropsArgF g st a := by
  intro f g st a hf hg
  obtain ⟨f', rfl⟩ : ∃ k, f = k + 1 := ⟨f - 1, by omega⟩
  obtain ⟨g', rfl⟩ : ∃ k, g = k + 1 := ⟨g - 1, by omega⟩
  rcases a with _ | b | n | m | q | str | ps <;> try rfl
  simp only [sizeRV_vSeq] at hf hg
  simp only [parsePropsArgF]
  rw [parsePropertiesAuxF_stable f' g' st ps (by omega) (by omega) []]
termination_by f => f

theorem parsePropertiesAuxF_stable : ∀ f g st xs, 4 * sizeRVList xs + 3 ≤ f →
    4 * sizeRVList xs + 3 ≤ g → ∀ acc,
    parsePropertiesAuxF f st xs acc = parsePropertiesAuxF g st xs acc := by
  intro f g st xs hf hg acc
  obtain ⟨f', rfl⟩ : ∃ k, f = k + 1 := ⟨f - 1, by omega⟩
  obtain ⟨g', rfl⟩ : ∃ k, g = k + 1 := ⟨g - 1, by omega⟩
  rcases xs with _ | ⟨prop, rest⟩
  · rfl
  · simp only [sizeRVList_cons] at hf hg
    have hp := sizeRV_pos prop
    simp only [parsePropertiesAuxF]
    rw [parsePropStepF_stable f' g' st prop (by omega) (by omega)]
    cases hstep : parsePropStepF g' st prop with
    | none => rfl
    | some o =>
      cases o with
      | none => exact parsePropertiesAuxF_stable f' g' st rest (by omega) (by omega) acc
      | some kg => exact parsePropertiesAuxF_stable f' g' st rest (by omega) (by omega) _
termination_by f => f

theorem parsePropStepF_stable : ∀ f g st prop, 4 * sizeRV prop + 2 ≤ f →
    4 * sizeRV prop + 2 ≤ g → parsePropStepF f st prop = parsePropStepF g st prop := by
  intro f g st prop hf hg
  obtain ⟨f', rfl⟩ : ∃ k, f = k + 1 := ⟨f - 1, by omega⟩
  obtain ⟨g', rfl⟩ : ∃ k, g = k + 1 := ⟨g - 1, by omega⟩
  rcases prop with _ | b | n | m | q | str | xs <;> try rfl
  rcases xs with _ | ⟨p0, _ | ⟨p1, _ | ⟨p2, t⟩⟩⟩ <;> try rfl
  simp only [sizeRV_vSeq, sizeRVList_cons] at hf hg
  have h0 := sizeRV_pos p0
  have h1 := sizeRV_pos p1
  simp only [parsePropStepF]
  rw [parsePropEntryF_stable f' g' st p0 p1 p2 (by omega) (by omega)]
termination_by f => f

theorem parsePropEntryF_stable : ∀ f g st p0 p1 p2, 4 * sizeRV p2 + 4 ≤ f →
    4 * sizeRV p2 + 4 ≤ g → parsePropEntryF f st p0 p1 p2 = parsePropEntryF g st p0 p1 p2 := by
  intro f g st p0 p1 p2 hf hg
  obtain ⟨f', rfl⟩ : ∃ k, f = k + 1 := ⟨f - 1, by omega⟩
  obtain ⟨g', rfl⟩ : ∃ k, g = k + 1 := ⟨g - 1, by omega⟩
  simp only [parsePropEntryF]
  rw [parseValueF_stable f' g' st (ToInt p1) p2 (by omega) (by omega)]
termination_by f => f

theorem parseEdgeF_stable : ∀ f g st v, 4 * sizeRV v + 2 ≤ f → 4 * sizeRV v + 2 ≤ g →
    parseEdgeF f st v = parseEdgeF g st v := by
  intro f g st v hf hg
  obtain ⟨f', rfl⟩ : ∃ k, f = k + 1 := ⟨f - 1, by omega⟩
  obtain ⟨g', rfl⟩ : ∃ k, g = k + 1 := ⟨g - 1, by omega⟩
  rcases v with _ | b | n | m | q | str | xs <;> try rfl
  rcases xs with _ | ⟨a0, _ | ⟨a1, _ | ⟨a2, _ | ⟨a3, _ | ⟨a4, t⟩⟩⟩⟩⟩ <;> try rfl
  simp only [sizeRV_vSeq, sizeRVList_cons] at hf hg
  have h0 := sizeRV_pos a0
  have h1 := sizeRV_pos a1
  have h2 := sizeRV_pos a2
  have h3 := sizeRV_pos a3
  simp only [parseEdgeF]
  rw [parseEdgeBodyF_stable f' g' st a0 a1 a2 a3 a4 (by omega) (by omega)]
termination_by f => f

theorem parseEdgeBodyF_stable : ∀ f g st a0 a1 a2 a3 a4, 4 * sizeRV a4 + 3 ≤ f →
    4 * sizeRV a4 + 3 ≤ g →
    parseEdgeBodyF f st a0 a1 a2 a3 a4 = parseEdgeBodyF g st a0 a1 a2 a3 a4 := by
  intro f g st a0 a1 a2 a3 a4 hf hg
  obtain ⟨f', rfl⟩ : ∃ k, f = k + 1 := ⟨f - 1, by omega⟩
  obtain ⟨g', rfl⟩ : ∃ k, g = k + 1 := ⟨g - 1, by omega⟩
  simp only [parseEdgeBodyF]
  rw [parsePropsArgF_stable f' g' st a4 (by omega) (by omega)]
termination_by f => f

theorem parsePathF_stable : ∀ f g st v, 4 * sizeRV v + 2 ≤ f → 4 * sizeRV v + 2 ≤ g →
    parsePathF f st v = parsePathF g st v := by
  intro f g st v hf hg
  obtain ⟨f', rfl⟩ : ∃ k, f = k + 1 := ⟨f - 1, by omega⟩
  obtain ⟨g', rfl⟩ : ∃ k, g = k + 1 := ⟨g - 1, by omega⟩
  rcases v with _ | b | n | m | q | str | xs <;> try rfl
  rcases xs with _ | ⟨w0, _ | ⟨w1, t⟩⟩ <;> try rfl
  simp only [sizeRV_vSeq, sizeRVList_cons] at hf hg
  simp only [parsePathF]
  rw [parsePathBodyF_stable f' g' st w0 w1 (by omega) (by omega)]
termination_by f => f

theorem parsePathBodyF_stable : ∀ f g st w0 w1, 4 * (sizeRV w0 + sizeRV w1) + 3 ≤ f →
    4 * (sizeRV w0 + sizeRV w1) + 3 ≤ g →
    parsePathBodyF f st w0 w1 = parsePathBodyF g st w0 w1 := by
  intro f g st w0 w1 hf hg
  obtain ⟨f', rfl⟩ : ∃ k, f = k + 1 := ⟨f - 1, by omega⟩
  obtain ⟨g', rfl⟩ : ∃ k, g = k + 1 := ⟨g - 1, by omega⟩
  have h0 := sizeRV_pos w0
  have h1 := sizeRV_pos w1
  simp only [parsePathBodyF]
  rw [parsePathNodesF_stable f' g' st w0 (by omega) (by omega),
    parsePathEdgesF_stable f' g' st w1 (by omega) (by omega)]
termination_by f => f

theorem parsePathNodesF_stable : ∀ f g st w, 4 * sizeRV w + 2 ≤ f → 4 * sizeRV w + 2 ≤ g →
    parsePathNodesF f st w = parsePathNodesF g st w := by
  intro f g st w hf hg
  obtain ⟨f', rfl⟩ : ∃ k, f = k + 1 := ⟨f - 1, by omega⟩
  obtain ⟨g', rfl⟩ : ∃ k, g = k + 1 := ⟨g - 1, by omega⟩
  rcases w with _ | b | n | m | q | str | xs <;> try rfl
  rcases xs with _ | ⟨x, _ | ⟨a1, t⟩⟩ <;> try rfl
  rcases a1 with _ | b1 | n1 | m1 | q1 | str1 | items <;> try rfl
  simp only [sizeRV_vSeq, sizeRVList_cons] at hf hg
  have h0 := sizeRV_pos x
  simp only [parsePathNodesF]
  rw [parsePathNodesListF_stable f' g' st items (by omega) (by omega)]
termination_by f => f

theorem parsePathNodesListF_stable : ∀ f g st xs, 4 * sizeRVList xs + 3 ≤ f →
    4 * sizeRVList xs + 3 ≤ g → parsePathNodesListF f st xs = parsePathNodesListF g st xs := by
  intro f g st xs hf hg
  obtain ⟨f', rfl⟩ : ∃ k, f = k + 1 := ⟨f - 1, by omega⟩
  obtain ⟨g', rfl⟩ : ∃ k, g = k + 1 := ⟨g - 1, by omega⟩
  rcases xs with _ | ⟨item, rest⟩
  · rfl
  · simp only [sizeRVList_cons] at hf hg
    have hit := sizeRV_pos item
    simp only [parsePathNodesListF]
    rw [parsePathNodeItemF_stable f' g' st item (by omega) (by omega),
      parsePathNodesListF_stable f' g' st rest (by omega) (by omega)]
termination_by f => f

theorem parsePathNodeItemF_stable : ∀ f g st item, 4 * sizeRV item + 2 ≤ f →
    4 * sizeRV item + 2 ≤ g → parsePathNodeItemF f st item = parsePathNodeItemF g st item := by
  intro f g st item hf hg
  obtain ⟨f', rfl⟩ : ∃ k, f = k + 1 := ⟨f - 1, by omega⟩
  obtain ⟨g', rfl⟩ : ∃ k, g = k + 1 := ⟨g - 1, by omega⟩
  rcases item with _ | b | n | m | q | str | xs <;> try rfl
  rcases xs with _ | ⟨x, _ | ⟨d, t⟩⟩ <;> try rfl
  simp only [sizeRV_vSeq, sizeRVList_cons] at hf hg
  have h0 := sizeRV_pos x
  simp only [parsePathNodeItemF]
  rw [parseNodeF_stable f' g' st d (by omega) (by omega)]
termination_by f => f

theorem parsePathEdgesF_stable : ∀ f g st w, 4 * sizeRV w + 2 ≤ f → 4 * sizeRV w + 2 ≤ g →
    parsePathEdgesF f st w = parsePathEdgesF g st w := by
  intro f g st w hf hg
  obtain ⟨f', rfl⟩ : ∃ k, f = k + 1 := ⟨f - 1, by omega⟩
  obtain ⟨g', rfl⟩ : ∃ k, g = k + 1 := ⟨g - 1, by omega⟩
  rcases w with _ | b | n | m | q | str | xs <;> try rfl
  rcases xs with _ | ⟨x, _ | ⟨a1, t⟩⟩ <;> try rfl
  rcases a1 with _ | b1 | n1 | m1 | q1 | str1 | items <;> try rfl
  simp only [sizeRV_vSeq, sizeRVList_cons] at hf hg
  have h0 := sizeRV_pos x
  simp only [parsePathEdgesF]
  rw [parsePathEdgesListF_stable f' g' st items (by omega) (by omega)]
termination_by f => f

theorem parsePathEdgesListF_stable : ∀ f g st xs, 4 * sizeRVList xs + 3 ≤ f →
    4 * sizeRVList xs + 3 ≤ g → parsePathEdgesListF f st xs = parsePathEdgesListF g st xs := by
  intro f g st xs hf hg
  obtain ⟨f', rfl⟩ : ∃ k, f = k + 1 := ⟨f - 1, by omega⟩
  obtain ⟨g', rfl⟩ : ∃ k, g = k + 1 := ⟨g - 1, by omega⟩
  rcases xs with _ | ⟨item, rest⟩
  · rfl
  · simp only [sizeRVList_cons] at hf hg
    have hit := sizeRV_pos item
    simp only [parsePathEdgesListF]
    rw [parsePathEdgeItemF_stable f' g' st item (by omega) (by omega),
      parsePathEdgesListF_stable f' g' st rest (by omega) (by omega)]
termination_by f => f

theorem parsePathEdgeItemF_stable : ∀ f g st item, 4 * sizeRV item + 2 ≤ f →
    4 * sizeRV item + 2 ≤ g → parsePathEdgeItemF f st item = parsePathEdgeItemF g st item := by
  intro f g st item hf hg
  obtain ⟨f', rfl⟩ : ∃ k, f = k + 1 := ⟨f - 1, by omega⟩
  obtain ⟨g', rfl⟩ : ∃ k, g = k + 1 := ⟨g - 1, by omega⟩
  rcases item with _ | b | n | m | q | str | xs <;> try rfl
  rcases xs with _ | ⟨x, _ | ⟨d, t⟩⟩ <;> try rfl
  simp only [sizeRV_vSeq, sizeRVList_cons] at hf hg
  have h0 := sizeRV_pos x
  simp only [parsePathEdgeItemF]
  rw [parseEdgeF_stable f' g' st d (by omega) (by omega)]
termination_by f => f

theorem parseMapF_stable : ∀ f g st v, 4 * sizeRV v + 2 ≤ f → 4 * sizeRV v + 2 ≤ g →
    parseMapF f st v = parseMapF g st v := by
  intro f g st v hf hg
  obtain ⟨f', rfl⟩ : ∃ k, f = k + 1 := ⟨f - 1, by omega⟩
  obtain ⟨g', rfl⟩ : ∃ k, g = k + 1 := ⟨g - 1, by omega⟩
  rcases v with _ | b | n | m | q | str | xs <;> try rfl
  simp only [sizeRV_vSeq] at hf hg
  simp only [parseMapF]
  rw [parseMapPairsF_stable f' g' st xs (by omega) (by omega) []]
termination_by f => f

theorem parseMapPairsF_stable : ∀ f g st xs, 4 * sizeRVList xs + 3 ≤ f →
    4 * sizeRVList xs + 3 ≤ g → ∀ acc,
    parseMapPairsF f st xs acc = parseMapPairsF g st xs acc := by
  intro f g st xs hf hg acc
  obtain ⟨f', rfl⟩ : ∃ k, f = k + 1 := ⟨f - 1, by omega⟩
  obtain ⟨g', rfl⟩ : ∃ k, g = k + 1 := ⟨g - 1, by omega⟩
  rcases xs with _ | ⟨k, _ | ⟨vv, rest⟩⟩
  · rfl
  · rfl
  · simp only [sizeRVList_cons] at hf hg
    have hk := sizeRV_pos k
    have hv := sizeRV_pos vv
    simp only [parseMapPairsF]
    rw [parseMapValueF_stable f' g' st vv (by omega) (by omega)]
    cases hval : parseMapValueF g' st vv with
    | none => rfl
    | some gv => exact parseMapPairsF_stable f' g' st rest (by omega) (by omega) _
termination_by f => f

theorem parseMapValueF_stable : ∀ f g st vv, 4 * sizeRV vv + 2 ≤ f →
    4 * sizeRV vv + 2 ≤ g → parseMapValueF f st vv = parseMapValueF g st vv := by
  intro f g st vv hf hg
  obtain ⟨f', rfl⟩ : ∃ k, f = k + 1 := ⟨f - 1, by omega⟩
  obtain ⟨g', rfl⟩ : ∃ k, g = k + 1 := ⟨g - 1, by omega⟩
  rcases vv with _ | b | n | m | q | str | xs <;> try rfl
  rcases xs with _ | ⟨v0, _ | ⟨v1, t⟩⟩ <;> try rfl
  simp only [sizeRV_vSeq, sizeRVList_cons] at hf hg
  have h0 := sizeRV_pos v0
  simp only [parseMapValueF]
  rw [parseValueF_stable f' g' st (ToInt v0) v1 (by omega) (by omega)]
termination_by f => f

end

/-! ### Map and helper lemmas -/

theorem mapGet_mapSet_self (m : GoProps) (k : String) (v : GoValue) :
    mapGet (mapSet m k v) k = some v := by
  induction m with
  | nil => simp [mapSet, mapGet]
  | cons kv rest ih =>
    obtain ⟨k1, v1⟩ := kv
    simp only [mapSet]
    by_cases h : k1 = k
    · rw [if_pos h]
      simp [mapGet]
    · rw [if_neg h]
      simp only [mapGet]
      rw [if_neg h]
      exact ih

theorem mapGet_mapSet_ne (m : GoProps) (k k' : String) (v : GoValue) (h : k' ≠ k) :
    mapGet (mapSet m k v) k' = mapGet m k' := by
  induction m with
  | nil =>
    simp only [mapSet, mapGet]
    rw [if_neg fun hh => h hh.symm]
  | cons kv rest ih =>
    obtain ⟨k1, v1⟩ := kv
    simp only [mapSet]
    by_cases h1 : k1 = k
    · subst h1
      rw [if_pos rfl]
      simp only [mapGet]
      rw [if_neg fun hh => h hh.symm, if_neg fun hh => h hh.symm]
    · rw [if_neg h1]
      simp only [mapGet]
      by_cases h2 : k1 = k'
      · rw [if_pos h2, if_pos h2]
      · rw [if_neg h2, if_neg h2]
        exact ih

theorem mem_mapKeys_mapSet (m : GoProps) (k name : String) (v : GoValue) :
    name ∈ mapKeys (mapSet m k v) ↔ name ∈ mapKeys m ∨ name = k := by
  induction m with
  | nil => simp [mapSet, mapKeys]
  | cons kv rest ih =>
    obtain ⟨k1, v1⟩ := kv
    simp only [mapSet]
    by_cases h : k1 = k
    · rw [if_pos h]
      subst h
      simp only [mapKeys, List.map_cons, List.mem_cons]
      tauto
    · rw [if_neg h]
      simp only [mapKeys, List.map_cons, List.mem_cons] at ih ⊢
      rw [ih]
      tauto

theorem nodup_mapKeys_mapSet (m : GoProps) (k : String) (v : GoValue)
    (h : (mapKeys m).Nodup) : (mapKeys (mapSet m k v)).Nodup := by
  induction m with
  | nil => simp [mapSet, mapKeys]
  | cons kv rest ih =>
    obtain ⟨k1, v1⟩ := kv
    simp only [mapKeys, List.map_cons, List.nodup_cons] at h
    simp only [mapSet]
    by_cases h1 : k1 = k
    · rw [if_pos h1]
      simp only [mapKeys, List.map_cons, List.nodup_cons]
      exact ⟨h1 ▸ h.1, h.2⟩
    · rw [if_neg h1]
      simp only [mapKeys, List.map_cons, List.nodup_cons]
      refine ⟨?_, ih h.2⟩
      intro hmem
      rcases (mem_mapKeys_mapSet rest k k1 v).1 hmem with hm | rfl
      · exact h.1 hm
      · exact h1 rfl

theorem isNil_eq_false (v : RawValue) (h : v ≠ .vNil) : v.isNil = false := by
  cases v <;> simp [RawValue.isNil] at h ⊢

/-! ### One-step unfolding of the fueled decoders at a successor fuel -/

theorem parsePathF_succ (f : Nat) (st : ParserState) (v : RawValue) :
    parsePathF (f + 1) st v =
      match v with
      | .vSeq (w0 :: w1 :: _) => parsePathBodyF f st w0 w1
      | _ => some none := rfl

theorem parsePathBodyF_succ (f : Nat) (st : ParserState) (w0 w1 : RawValue) :
    parsePathBodyF (f + 1) st w0 w1 =
      match parsePathNodesF f st w0 with
      | none => none
      | some ns => (parsePathEdgesF f st w1).map fun es => some (.mk ns es) := rfl

theorem parsePathNodesF_succ (f : Nat) (st : ParserState) (w : RawValue) :
    parsePathNodesF (f + 1) st w =
      match w with
      | .vSeq (_ :: .vSeq items :: _) => parsePathNodesListF f st items
      | _ => some [] := rfl

theorem parsePathNodesListF_succ (f : Nat) (st : ParserState) (item : RawValue)
    (rest : List RawValue) :
    parsePathNodesListF (f + 1) st (item :: rest) =
      match parsePathNodeItemF f st item with
      | none => none
      | some none => parsePathNodesListF f st rest
      | some (some n) => (parsePathNodesListF f st rest).map fun ns => n :: ns := rfl

theorem parsePathNodeItemF_succ (f : Nat) (st : ParserState) (item : RawValue) :
    parsePathNodeItemF (f + 1) st item =
      match item with
      | .vSeq (_ :: d :: _) => if d.isNil then some none else parseNodeF f st d
      | _ => some none := rfl

theorem parsePathEdgesF_succ (f : Nat) (st : ParserState) (w : RawValue) :
    parsePathEdgesF (f + 1) st w =
      match w with
      | .vSeq (_ :: .vSeq items :: _) => parsePathEdgesListF f st items
      | _ => some [] := rfl

theorem parsePathEdgesListF_succ (f : Nat) (st : ParserState) (item : RawValue)
    (rest : List RawValue) :
    parsePathEdgesListF (f + 1) st (item :: rest) =
      match parsePathEdgeItemF f st item with
      | none => none
      | some none => parsePathEdgesListF f st rest
      | some (some e) => (parsePathEdgesListF f st rest).map fun es => e :: es := rfl

theorem parsePathEdgeItemF_succ (f : Nat) (st : ParserState) (item : RawValue) :
    parsePathEdgeItemF (f + 1) st item =
      match item with
      | .vSeq (_ :: d :: _) => if d.isNil then some none else parseEdgeF f st d
      | _ => some none := rfl

/-! ### Canonical unfolding equations for the decoder wrappers -/

theorem parseNode_nil (st : ParserState) (v : RawValue)
    (h : ∀ xs, v = .vSeq xs → xs.length < 3) : parseNode st v = some none := by
  show parseNodeF ((4 * sizeRV v + 1) + 1) st v = some none
  rcases v with _ | b | n | m | q | str | xs
  case vSeq =>
    rcases xs with _ | ⟨a0, _ | ⟨a1, _ | ⟨a2, t⟩⟩⟩
    · rfl
    · rfl
    · rfl
    · have := h _ rfl
      simp at this
      omega
  all_goals rfl

theorem parseEdge_nil (st : ParserState) (v : RawValue)
    (h : ∀ xs, v = .vSeq xs → xs.length < 5) : parseEdge st v = some none := by
  show parseEdgeF ((4 * sizeRV v + 1) + 1) st v = some none
  rcases v with _ | b | n | m | q | str | xs
  case vSeq =>
    rcases xs with _ | ⟨a0, _ | ⟨a1, _ | ⟨a2, _ | ⟨a3, _ | ⟨a4, t⟩⟩⟩⟩⟩
    · rfl
    · rfl
    · rfl
    · rfl
    · rfl
    · have := h _ rfl
      simp at this
      omega
  all_goals rfl

theorem parsePath_cons (st : ParserState) (w0 w1 : RawValue) (t : List RawValue) :
    parsePath st (.vSeq (w0 :: w1 :: t)) =
      match parsePathNodes st w0 with
      | none => none
      | some ns => (parsePathEdges st w1).map fun es => some (.mk ns es) := by
  have h0 := sizeRV_pos w0
  have h1 := sizeRV_pos w1
  show parsePathF ((4 * sizeRV (.vSeq (w0 :: w1 :: t)) + 1) + 1) st (.vSeq (w0 :: w1 :: t)) = _
  rw [parsePathF_succ]
  show parsePathBodyF ((4 * sizeRV (.vSeq (w0 :: w1 :: t))) + 1) st w0 w1 = _
  rw [parsePathBodyF_succ,
    parsePathNodesF_stable (4 * sizeRV (.vSeq (w0 :: w1 :: t))) (4 * sizeRV w0 + 2) st w0
      (by simp only [sizeRV_vSeq, sizeRVList_cons]; omega) (by omega),
    parsePathEdgesF_stable (4 * sizeRV (.vSeq (w0 :: w1 :: t))) (4 * sizeRV w1 + 2) st w1
      (by simp only [sizeRV_vSeq, sizeRVList_cons]; omega) (by omega)]
  rfl

theorem parsePathNodes_wrapped (st : ParserState) (x : RawValue) (items : List RawValue)
    (t : List RawValue) :
    parsePathNodes st (.vSeq (x :: .vSeq items :: t)) = parsePathNodesList st items := by
  have h0 := sizeRV_pos x
  show parsePathNodesF ((4 * sizeRV (.vSeq (x :: .vSeq items :: t)) + 1) + 1) st _ = _
  rw [parsePathNodesF_succ]
  show parsePathNodesListF (4 * sizeRV (.vSeq (x :: .vSeq items :: t)) + 1) st items = _
  rw [parsePathNodesListF_stable (4 * sizeRV (.vSeq (x :: .vSeq items :: t)) + 1)
      (4 * sizeRVList items + 3) st items
      (by simp only [sizeRV_vSeq, sizeRVList_cons]; omega) (by omega)]
  rfl

theorem parsePathNodesList_nil (st : ParserState) : parsePathNodesList st [] = some [] := rfl

theorem parsePathNodesList_cons (st : ParserState) (item : RawValue) (rest : List RawValue) :
    parsePathNodesList st (item :: rest) =
      match parsePathNodeItem st item with
      | none => none
      | some none => parsePathNodesList st rest
      | some (some n) => (parsePathNodesList st rest).map fun ns => n :: ns := by
  have hi := sizeRV_pos item
  show parsePathNodesListF ((4 * sizeRVList (item :: rest) + 2) + 1) st (item :: rest) = _
  rw [parsePathNodesListF_succ,
    parsePathNodeItemF_stable (4 * sizeRVList (item :: rest) + 2) (4 * sizeRV item + 2)
      st item (by simp only [sizeRVList_cons]; omega) (by omega),
    parsePathNodesListF_stable (4 * sizeRVList (item :: rest) + 2) (4 * sizeRVList rest + 3)
      st rest (by simp only [sizeRVList_cons]; omega) (by omega)]
  rfl

theorem parsePathNodeItem_eq (st : ParserState) (item : RawValue) :
    parsePathNodeItem st item =
      match item with
      | .vSeq (_ :: d :: _) => if d.isNil then some none else parseNode st d
      | _ => some none := by
  rcases item with _ | b | n | m | q | str | xs
  case vSeq =>
    rcases xs with _ | ⟨x, _ | ⟨d, t⟩⟩
    · rfl
    · rfl
    · have h0 := sizeRV_pos x
      show parsePathNodeItemF ((4 * sizeRV (.vSeq (x :: d :: t)) + 1) + 1) st _ = _
      simp only [parsePathNodeItemF_succ]
      rw [parseNodeF_stable (4 * sizeRV (.vSeq (x :: d :: t)) + 1) (4 * sizeRV d + 2) st d
          (by simp only [sizeRV_vSeq, sizeRVList_cons]; omega) (by omega)]
      rfl
  all_goals rfl

theorem parsePathEdges_wrapped (st : ParserState) (x : RawValue) (items : List RawValue)
    (t : List RawValue) :
    parsePathEdges st (.vSeq (x :: .vSeq items :: t)) = parsePathEdgesList st items := by
  have h0 := sizeRV_pos x
  show parsePathEdgesF ((4 * sizeRV (.vSeq (x :: .vSeq items :: t)) + 1) + 1) st _ = _
  rw [parsePathEdgesF_succ]
  show parsePathEdgesListF (4 * sizeRV (.vSeq (x :: .vSeq items :: t)) + 1) st items = _
  rw [parsePathEdgesListF_stable (4 * sizeRV (.vSeq (x :: .vSeq items :: t)) + 1)
      (4 * sizeRVList items + 3) st items
      (by simp only [sizeRV_vSeq, sizeRVList_cons]; omega) (by omega)]
  rfl

theorem parsePathEdgesList_nil (st : ParserState) : parsePathEdgesList st [] = some [] := rfl

theorem parsePathEdgesList_cons (st : ParserState) (item : RawValue) (rest : List RawValue) :
    parsePathEdgesList st (item :: rest) =
      match parsePathEdgeItem st item with
      | none => none
      | some none => parsePathEdgesList st rest
      | some (some e) => (parsePathEdgesList st rest).map fun es => e :: es := by
  have hi := sizeRV_pos item
  show parsePathEdgesListF ((4 * sizeRVList (item :: rest) + 2) + 1) st (item :: rest) = _
  rw [parsePathEdgesListF_succ,
    parsePathEdgeItemF_stable (4 * sizeRVList (item :: rest) + 2) (4 * sizeRV item + 2)
      st item (by simp only [sizeRVList_cons]; omega) (by omega),
    parsePathEdgesListF_stable (4 * sizeRVList (item :: rest) + 2) (4 * sizeRVList rest + 3)
      st rest (by simp only [sizeRVList_cons]; omega) (by omega)]
  rfl

theorem parsePathEdgeItem_eq (st : ParserState) (item : RawValue) :
    parsePathEdgeItem st item =
      match item with
      | .vSeq (_ :: d :: _) => if d.isNil then some none else parseEdge st d
      | _ => some none := by
  rcases item with _ | b | n | m | q | str | xs
  case vSeq =>
    rcases xs with _ | ⟨x, _ | ⟨d, t⟩⟩
    · rfl
    · rfl
    · have h0 := sizeRV_pos x
      show parsePathEdgeItemF ((4 * sizeRV (.vSeq (x :: d :: t)) + 1) + 1) st _ = _
      simp only [parsePathEdgeItemF_succ]
      rw [parseEdgeF_stable (4 * sizeRV (.vSeq (x :: d :: t)) + 1) (4 * sizeRV d + 2) st d
          (by simp only [sizeRV_vSeq, sizeRVList_cons]; omega) (by omega)]
      rfl
  all_goals rfl

/-- Composing the two sequential `ReplaceAll` passes of the literal
serializer equals the character-wise escaping described by the spec. -/
theorem replaceChar_escape (l : List Char) :
    replaceChar '"' ['\\', '"'] (replaceChar '\\' ['\\', '\\'] l) = escapeList l := by
  induction l with
  | nil => rfl
  | cons c cs ih =>
    have hbq : ¬('\\' : Char) = '"' := by decide
    by_cases h1 : c = '\\'
    · subst h1
      simp [replaceChar, escapeList, ih, hbq]
    · by_cases h2 : c = '"'
      · subst h2
        simp [replaceChar, escapeList, ih, hbq, h1]
      · simp [replaceChar, escapeList, ih, h1, h2]

/-- Characterization of the row-assembly loop: the assembled map answers
lookups by the last (highest-index) column whose resolved name matches,
its keys are duplicate-free, and its key set is exactly the set of resolved
column names (past the accumulator). -/
theorem parseRowAux_charac (st : ParserState) (headers : List Header) :
    ∀ (cells : List RawValue) (i : Nat) (acc m : GoProps),
      parseRowAux st headers i cells acc = some m →
      (∀ name, mapGet m name =
        match lastMatchCell headers i cells name with
        | some c => decodeCell st c
        | none => mapGet acc name)
      ∧ ((mapKeys acc).Nodup → (mapKeys m).Nodup)
      ∧ (∀ name, name ∈ mapKeys m ↔
          name ∈ mapKeys acc ∨ ∃ j, j < cells.length ∧ rowColumnName headers (i + j) = name) := by
  intro cells
  induction cells with
  | nil =>
    intro i acc m hm
    simp only [parseRowAux] at hm
    injection hm with hm
    subst hm
    refine ⟨fun name => rfl, id, fun name => ?_⟩
    constructor
    · exact Or.inl
    · rintro (h | ⟨j, hj, _⟩)
      · exact h
      · simp at hj
  | cons cell rest ih =>
    intro i acc m hm
    simp only [parseRowAux] at hm
    cases hdc : decodeCell st cell with
    | none =>
      rw [hdc] at hm
      simp at hm
    | some g =>
      rw [hdc] at hm
      simp only at hm
      obtain ⟨ih1, ih2, ih3⟩ :=
        ih (i + 1) (mapSet acc (rowColumnName headers i) g) m hm
      refine ⟨?_, ?_, ?_⟩
      · intro name
        rw [ih1 name]
        simp only [lastMatchCell]
        cases hl : lastMatchCell headers (i + 1) rest name with
        | some c => rfl
        | none =>
          by_cases hn : rowColumnName headers i = name
          · subst hn
            rw [if_pos rfl]
            show mapGet (mapSet acc (rowColumnName headers i) g) (rowColumnName headers i) =
              decodeCell st cell
            rw [mapGet_mapSet_self, hdc]
          · rw [if_neg hn]
            show mapGet (mapSet acc (rowColumnName headers i) g) name = mapGet acc name
            exact mapGet_mapSet_ne _ _ _ _ fun hh => hn hh.symm
      · intro hacc
        exact ih2 (nodup_mapKeys_mapSet _ _ _ hacc)
      · intro name
        rw [ih3 name, mem_mapKeys_mapSet]
        constructor
        · rintro ((h | rfl) | ⟨j, hj, hcol⟩)
          · exact Or.inl h
          · exact Or.inr ⟨0, by simp, by simp⟩
          · refine Or.inr ⟨j + 1, by simp; omega, ?_⟩
            rw [show i + (j + 1) = i + 1 + j from by omega]
            exact hcol
        · rintro (h | ⟨j, hj, hcol⟩)
          · exact Or.inl (Or.inl h)
          · cases j with
            | zero => exact Or.inl (Or.inr (by simpa using hcol.symm))
            | succ j =>
              refine Or.inr ⟨j, by simp at hj; omega, ?_⟩
              rw [show i + 1 + j = i + (j + 1) from by omega]
              exact hcol

/-! ### Claims -/

/-- C1: `ParseResult` classifies a raw reply strictly by arity: a
non-sequence fails with a format error naming the dynamic type; a
1-element sequence yields the metadata-only result with null headers and
data, its single element decoded as a string sequence (failing when that
element is not sequence-shaped); a 3-element sequence yields headers
(element 0 when sequence-shaped, else null), data (element 1 when
sequence-shaped, else null) and metadata decoded from element 2 (failing
when element 2 is not sequence-shaped); every other length fails with a
format error mentioning that length — and these are the only error
cases. -/
theorem C1_parse_result_arity (v : RawValue) :
    ((∀ xs, v ≠ .vSeq xs) →
      ParseResult v = .error ("unexpected query result format: " ++ typeName v))
    ∧ (∀ a0, v = .vSeq [a0] →
        (∀ xs, a0 = .vSeq xs →
          ParseResult v = .ok ⟨none, none, xs.map ToString⟩)
        ∧ ((∀ xs, a0 ≠ .vSeq xs) →
          ParseResult v = .error ("expected array, got " ++ typeName a0)))
    ∧ (∀ a0 a1 a2, v = .vSeq [a0, a1, a2] →
        (∀ xs, a2 = .vSeq xs →
          ParseResult v = .ok ⟨seqOrNull a0, seqOrNull a1, xs.map ToString⟩)
        ∧ ((∀ xs, a2 ≠ .vSeq xs) →
          ParseResult v = .error ("expected array, got " ++ typeName a2)))
    ∧ (∀ arr, v = .vSeq arr → arr.length ≠ 1 → arr.length ≠ 3 →
        ParseResult v = .error ("unexpected query result length: " ++ toString arr.length))
    ∧ (∀ e, ParseResult v = .error e →
        (∀ xs, v ≠ .vSeq xs)
        ∨ (∃ a0, v = .vSeq [a0] ∧ ∀ xs, a0 ≠ .vSeq xs)
        ∨ (∃ a0 a1 a2, v = .vSeq [a0, a1, a2] ∧ ∀ xs, a2 ≠ .vSeq xs)
        ∨ (∃ arr, v = .vSeq arr ∧ arr.length ≠ 1 ∧ arr.length ≠ 3)) := by
  refine ⟨?_, ?_, ?_, ?_, ?_⟩
  · intro h
    rcases v with _ | b | n | m | q | str | xs
    case vSeq => exact absurd rfl (h xs)
    all_goals rfl
  · rintro a0 rfl
    constructor
    · rintro xs rfl
      rfl
    · intro h
      rcases a0 with _ | b | n | m | q | str | xs
      case vSeq => exact absurd rfl (h xs)
      all_goals rfl
  · rintro a0 a1 a2 rfl
    constructor
    · rintro xs rfl
      rfl
    · intro h
      rcases a2 with _ | b | n | m | q | str | xs
      case vSeq => exact absurd rfl (h xs)
      all_goals rfl
  · rintro arr rfl h1 h3
    rcases arr with _ | ⟨a, _ | ⟨b, _ | ⟨c, _ | ⟨d, t⟩⟩⟩⟩
    · rfl
    · exact absurd rfl h1
    · rfl
    · exact absurd rfl h3
    · rfl
  · intro e he
    rcases v with _ | b | n | m | q | str | arr
    case vSeq =>
      rcases arr with _ | ⟨a0, _ | ⟨a1, _ | ⟨a2, _ | ⟨a3, t⟩⟩⟩⟩
      · exact Or.inr (Or.inr (Or.inr ⟨[], rfl, by simp, by simp⟩))
      · rcases a0 with _ | b0 | n0 | m0 | q0 | s0 | xs
        case vSeq => exact absurd he (by simp [ParseResult, toStringSlice, Except.map])
        all_goals exact Or.inr (Or.inl ⟨_, rfl, fun ys h => nomatch h⟩)
      · exact Or.inr (Or.inr (Or.inr ⟨_, rfl, by simp, by simp⟩))
      · rcases a2 with _ | b2 | n2 | m2 | q2 | s2 | xs
        case vSeq => exact absurd he (by simp [ParseResult, toStringSlice, Except.map])
        all_goals exact Or.inr (Or.inr (Or.inl ⟨a0, a1, _, rfl, fun ys h => nomatch h⟩))
      · refine Or.inr (Or.inr (Or.inr ⟨_, rfl, by simp, ?_⟩))
        simp only [List.length_cons]
        omega
    all_goals exact Or.inl fun xs h => nomatch h

/-- Witness for C1 at the spec's own examples: a length-1 reply with a
sequence-shaped element succeeds as metadata-only, and a length-2 reply
fails with the length-naming format error. -/
theorem C1_parse_result_arity_witness :
    ParseResult (.vSeq [.vSeq [.vStr "Query internal execution time: 0.5 ms"]]) =
      .ok ⟨none, none, ["Query internal execution time: 0.5 ms"]⟩ ∧
    ParseResult (.vSeq [.vInt64 1, .vInt64 2]) =
      .error ("unexpected query result length: " ++ toString (2 : Nat)) := by
  constructor
  · exact ((C1_parse_result_arity _).2.1 _ rfl).1 [.vStr "Query internal execution time: 0.5 ms"] rfl
  · exact (C1_parse_result_arity _).2.2.2.1 [.vInt64 1, .vInt64 2] rfl (by simp) (by simp)

/-- C2 counterexample: the claim asserts resolution never fails for any
integer index, but resolving index `-1` against table `["Person"]` passes
the `labelIdx < len` guard and panics on the negative slice index
(modelled `none`), rather than producing the placeholder. -/
theorem C2_resolution_counterexample :
    resolveLabel ["Person"] (-1) = none ∧
    resolveLabel ["Person"] (-1) ≠ some ("label_" ++ toString (-1 : Int)) := by
  constructor
  · decide
  · decide

/-- C2 (amended): for every nonnegative index `i`, resolution never
fails: it returns the cached name when `i` is in range and the synthetic
placeholder (`label_<i>`, `type_<i>`, `prop_<i>`) otherwise.  (For
negative `i` the code panics, so the claim's "any integer index" is
restricted to `0 ≤ i`.) -/
theorem C2_resolution_amended (labels relTypes propertyKeys : List String) (i : Int)
    (hi : 0 ≤ i) :
    ((resolveLabel labels i).isSome ∧ (resolveRelType relTypes i).isSome ∧
      (resolvePropertyKey propertyKeys i).isSome)
    ∧ (∀ h : i.toNat < labels.length,
        resolveLabel labels i = some (labels.get ⟨i.toNat, h⟩))
    ∧ ((labels.length : Int) ≤ i →
        resolveLabel labels i = some ("label_" ++ toString i))
    ∧ (∀ h : i.toNat < relTypes.length,
        resolveRelType relTypes i = some (relTypes.get ⟨i.toNat, h⟩))
    ∧ ((relTypes.length : Int) ≤ i →
        resolveRelType relTypes i = some ("type_" ++ toString i))
    ∧ (∀ h : i.toNat < propertyKeys.length,
        resolvePropertyKey propertyKeys i = some (propertyKeys.get ⟨i.toNat, h⟩))
    ∧ ((propertyKeys.length : Int) ≤ i →
        resolvePropertyKey propertyKeys i = some ("prop_" ++ toString i)) := by
  refine ⟨⟨?_, ?_, ?_⟩, ?_, ?_, ?_, ?_, ?_, ?_⟩
  · simp only [resolveLabel]
    split_ifs with h1 h2
    · rfl
    · exact absurd ⟨hi, by omega⟩ h2
    · rfl
  · simp only [resolveRelType]
    split_ifs with h1 h2
    · rfl
    · exact absurd ⟨hi, by omega⟩ h2
    · rfl
  · simp only [resolvePropertyKey]
    split_ifs with h1 h2
    · rfl
    · exact absurd ⟨hi, by omega⟩ h2
    · rfl
  · intro h
    simp only [resolveLabel]
    rw [if_pos (by omega), dif_pos ⟨hi, h⟩]
  · intro hlen
    simp only [resolveLabel]
    rw [if_neg (by omega)]
  · intro h
    simp only [resolveRelType]
    rw [if_pos (by omega), dif_pos ⟨hi, h⟩]
  · intro hlen
    simp only [resolveRelType]
    rw [if_neg (by omega)]
  · intro h
    simp only [resolvePropertyKey]
    rw [if_pos (by omega), dif_pos ⟨hi, h⟩]
  · intro hlen
    simp only [resolvePropertyKey]
    rw [if_neg (by omega)]

/-- Witness for the amended C2 at the spec's example: label index 3
against a cache of length 1 yields `"label_3"`. -/
theorem C2_resolution_amended_witness :
    (0 : Int) ≤ 3 ∧ resolveLabel ["Person"] 3 = some "label_3" := by
  refine ⟨by decide, ?_⟩
  have h := (C2_resolution_amended ["Person"] [] [] 3 (by decide)).2.2.1 (by decide)
  rw [h]
  decide

/-- C5: `ToInt64` accepts Go `int`, `int64`, `float64` (truncating toward
zero) and numeric-looking strings (with `strconv.ParseInt`'s discarded
error: syntax errors yield 0, range overflow clamps); every other
representation yields 0 rather than an error.  In particular an
Integer-tagged cell with string payload `"25"` decodes to `25` and
`"not-a-number"` to `0`. -/
theorem C5_int_coercion :
    (∀ n : Int, ToInt64 (.vInt n) = n)
    ∧ (∀ n : Int, ToInt64 (.vInt64 n) = n)
    ∧ (∀ q : Rat, ToInt64 (.vFloat q) = ratTrunc q)
    ∧ (∀ s : String, digitsToNat? (stripSign s.data).2 = none → ToInt64 (.vStr s) = 0)
    ∧ (∀ (s : String) (n : Nat), digitsToNat? (stripSign s.data).2 = some n →
        ToInt64 (.vStr s) = clampInt64 (if (stripSign s.data).1 then -(n : Int) else (n : Int)))
    ∧ ToInt64 .vNil = 0
    ∧ (∀ b, ToInt64 (.vBool b) = 0)
    ∧ (∀ xs, ToInt64 (.vSeq xs) = 0)
    ∧ (∀ st, parseValue st ValueTypeInteger (.vStr "25") = some (.int 25))
    ∧ (∀ st, parseValue st ValueTypeInteger (.vStr "not-a-number") = some (.int 0)) := by
  refine ⟨fun n => rfl, fun n => rfl, fun q => rfl, ?_, ?_, rfl, fun b => rfl, fun xs => rfl,
    ?_, ?_⟩
  · intro s h
    simp only [ToInt64, goParseInt64]
    rw [h]
  · intro s n h
    simp only [ToInt64, goParseInt64]
    rw [h]
  · intro st
    simp [parseValue, parseValueF, sizeRV, ValueTypeNull, ValueTypeString, ValueTypeInteger,
      ToInt64, goParseInt64, stripSign, digitsToNat?, digitsToNatAux]
    rw [show clampInt64 25 = (25 : Int) from by decide]
  · intro st
    simp [parseValue, parseValueF, sizeRV, ValueTypeNull, ValueTypeString, ValueTypeInteger,
      ToInt64, goParseInt64, stripSign, digitsToNat?, digitsToNatAux]

/-- Witness for C5: the signed numeric string `"-7"` converts (clamped)
and a non-numeric string hits the zero default. -/
theorem C5_int_coercion_witness :
    digitsToNat? (stripSign ("-7" : String).data).2 = some 7 ∧
    ToInt64 (.vStr "-7") = -7 ∧
    digitsToNat? (stripSign ("x" : String).data).2 = none ∧
    ToInt64 (.vStr "x") = 0 := by
  refine ⟨by decide, ?_, by decide, ?_⟩
  · have h := C5_int_coercion.2.2.2.2.1 "-7" 7 (by decide)
    rw [h]
    decide
  · exact C5_int_coercion.2.2.2.1 "x" (by decide)

/-- C6: the literal serializer renders a string double-quoted with
backslashes doubled first and quotes escaped second — equivalently, the
character-wise escaping described by the spec — and the spec's two
testable examples hold. -/
theorem C6_literal_escaping :
    (∀ s : String, ValueToString (.pstr s) = "\"" ++ specEscape s ++ "\"")
    ∧ ValueToString (.pstr "hello \"world\"") = "\"hello \\\"world\\\"\""
    ∧ ValueToString (.pstr "path\\to\\file") = "\"path\\\\to\\\\file\"" := by
  refine ⟨?_, by decide, by decide⟩
  intro s
  show ("\"" ++ goReplaceAllChar (goReplaceAllChar s '\\' "\\\\") '"' "\\\"" ++ "\"")
    = "\"" ++ specEscape s ++ "\""
  simp only [goReplaceAllChar, specEscape]
  rw [replaceChar_escape]

/-- C7: `BuildQueryArgs` returns `[command, graph, query']` where the
query text carries the `CYPHER k=v ... ` prefix exactly when the parameter
map is non-nil and non-empty; `"TIMEOUT"` and the decimal timeout are
appended exactly when `timeout > 0`; the `--compact` flag is appended
last exactly when compact is requested.  The spec's concrete example
holds. -/
theorem C7_build_query_args :
    (∀ cmd graph query ps timeout compact,
      BuildQueryArgs cmd graph query (some ps) timeout compact =
        [cmd, graph,
          if ps.length > 0 then "CYPHER " ++ paramsToString ps ++ " " ++ query else query]
        ++ (if timeout > 0 then ["TIMEOUT", toString timeout] else [])
        ++ (if compact then ["--compact"] else []))
    ∧ (∀ cmd graph query timeout compact,
      BuildQueryArgs cmd graph query none timeout compact =
        [cmd, graph, query]
        ++ (if timeout > 0 then ["TIMEOUT", toString timeout] else [])
        ++ (if compact then ["--compact"] else []))
    ∧ BuildQueryArgs "GRAPH.QUERY" "g" "MATCH (n) RETURN n" none 0 true =
        ["GRAPH.QUERY", "g", "MATCH (n) RETURN n", "--compact"] := by
  refine ⟨?_, ?_, rfl⟩
  · intro cmd graph query ps timeout compact
    simp only [BuildQueryArgs]
    split_ifs <;> simp
  · intro cmd graph query timeout compact
    simp only [BuildQueryArgs]
    split_ifs <;> simp

/-- C8: `updateMetadata` replaces exactly the tables whose argument is
non-nil and leaves a table untouched when its argument is nil — supplying
only some tables does not alter the others. -/
theorem C8_refresh_frame (st : ParserState) (ls rt pk : Option (List String))
    (l r k : List String) :
    ((updateMetadata st (some l) rt pk).labels = l)
    ∧ ((updateMetadata st none rt pk).labels = st.labels)
    ∧ ((updateMetadata st ls (some r) pk).relTypes = r)
    ∧ ((updateMetadata st ls none pk).relTypes = st.relTypes)
    ∧ ((updateMetadata st ls rt (some k)).propertyKeys = k)
    ∧ ((updateMetadata st ls rt none).propertyKeys = st.propertyKeys) :=
  ⟨rfl, rfl, rfl, rfl, rfl, rfl⟩

/-- C3: the spec's node-decode example — payload `[5, [0], [[0,2,"Alice"]]]`
against label table `["Person"]` and property-key table `["name"]` yields
node id 5, labels `["Person"]`, properties `{"name": "Alice"}` — and in
general in-range label and property-key indices are resolved through the
corresponding table. -/
theorem C3_node_decode :
    parseNode ⟨["Person"], [], ["name"]⟩
        (.vSeq [.vInt64 5, .vSeq [.vInt64 0],
          .vSeq [.vSeq [.vInt64 0, .vInt64 2, .vStr "Alice"]]]) =
      some (some (.mk 5 ["Person"] [("name", .str "Alice")]))
    ∧ (∀ (labels : List String) (i : Int) (h0 : 0 ≤ i) (h : i.toNat < labels.length),
        resolveLabel labels i = some (labels.get ⟨i.toNat, h⟩))
    ∧ (∀ (keys : List String) (i : Int) (h0 : 0 ≤ i) (h : i.toNat < keys.length),
        resolvePropertyKey keys i = some (keys.get ⟨i.toNat, h⟩)) := by
  refine ⟨?_, ?_, ?_⟩
  · simp [parseNode, parseNodeF, parseNodeBodyF, parseNodeLabelsArg, parseNodeLabels,
      parsePropsArgF, parsePropertiesAuxF, parsePropStepF, parsePropEntryF, parseValueF,
      resolveLabel, resolvePropertyKey, ToInt, ToInt64, ToString, mapSet, sizeRV, sizeRVList,
      ValueTypeNull, ValueTypeString, ValueTypeInteger, ValueTypeBoolean, ValueTypeDouble,
      ValueTypeArray, ValueTypeNode, ValueTypeEdge, ValueTypePath, ValueTypeMap, ValueTypePoint,
      goParseInt64, stripSign, digitsToNat?, digitsToNatAux, clampInt64]
  · intro labels i h0 h
    simp only [resolveLabel]
    rw [if_pos (by omega), dif_pos ⟨h0, h⟩]
  · intro keys i h0 h
    simp only [resolvePropertyKey]
    rw [if_pos (by omega), dif_pos ⟨h0, h⟩]

/-- Witness for C3's resolution conjuncts at in-range indices. -/
theorem C3_node_decode_witness :
    resolveLabel ["Person"] 0 = some "Person" ∧
    resolvePropertyKey ["name"] 0 = some "name" :=
  ⟨C3_node_decode.2.1 ["Person"] 0 (by decide) (by decide),
   C3_node_decode.2.2 ["name"] 0 (by decide) (by decide)⟩

/-- C4: path decoding strips the outer tagged-Array envelope and then each
inner tagged envelope: a path whose node wrapper is
`[ArrayTypeCode, [[NodeTypeCode, nodePayload]]]` yields exactly the one
decoded node in `Path.nodes` (for any tag values, which the code never
inspects). -/
theorem C4_path_double_unwrap (st : ParserState) (ac nc np ew : RawValue) (node : GoNode)
    (hnp : parseNode st np = some (some node)) :
    parsePath st (.vSeq [.vSeq [ac, .vSeq [.vSeq [nc, np]]], ew]) =
      (parsePathEdges st ew).map fun es => some (.mk [node] es) := by
  have hne : np ≠ .vNil := by
    intro h
    subst h
    rw [parseNode_nil st .vNil fun xs hh => nomatch hh] at hnp
    simp at hnp
  have hitem : parsePathNodeItem st (.vSeq [nc, np]) = parseNode st np := by
    rw [parsePathNodeItem_eq]
    show (if np.isNil then some none else parseNode st np) = parseNode st np
    simp [isNil_eq_false np hne]
  rw [parsePath_cons st (.vSeq [ac, .vSeq [.vSeq [nc, np]]]) ew [],
    parsePathNodes_wrapped st ac [.vSeq [nc, np]] [],
    parsePathNodesList_cons, hitem, hnp]
  rfl

/-- Witness for C4 at a concrete minimal node payload. -/
theorem C4_path_double_unwrap_witness :
    parseNode ⟨[], [], []⟩ (.vSeq [.vInt64 1, .vNil, .vNil]) = some (some (.mk 1 [] [])) ∧
    parsePath ⟨[], [], []⟩
        (.vSeq [.vSeq [.vInt64 6, .vSeq [.vSeq [.vInt64 8, .vSeq [.vInt64 1, .vNil, .vNil]]]],
          .vNil]) =
      (parsePathEdges ⟨[], [], []⟩ .vNil).map fun es => some (.mk [.mk 1 [] []] es) := by
  have h1 : parseNode (⟨[], [], []⟩ : ParserState) (.vSeq [.vInt64 1, .vNil, .vNil]) =
      some (some (.mk 1 [] [])) := by
    simp [parseNode, parseNodeF, parseNodeBodyF, parseNodeLabelsArg, parsePropsArgF,
      sizeRV, sizeRVList, ToInt64]
  exact ⟨h1, C4_path_double_unwrap _ _ (.vInt64 8) _ _ _ h1⟩

/-- The contribution of one path item to the node list, phrased through
`parsePathNodeItem`. -/
theorem parsePathNodeItem_fn (st : ParserState) (item : RawValue) :
    (match item with
      | RawValue.vSeq (_ :: d :: _) =>
        if d.isNil then none
        else
          match parseNode st d with
          | some (some n) => some n
          | _ => none
      | _ => none) =
    (match parsePathNodeItem st item with
      | some (some n) => some n
      | _ => (none : Option GoNode)) := by
  rw [parsePathNodeItem_eq]
  rcases item with _ | b | n | m | q | str | xs
  case vSeq =>
    rcases xs with _ | ⟨x, _ | ⟨d, t⟩⟩
    · rfl
    · rfl
    · by_cases hd : d.isNil
      · simp [hd]
      · simp only [Bool.not_eq_true] at hd
        simp [hd]
  all_goals rfl

/-- The contribution of one path item to the edge list, phrased through
`parsePathEdgeItem`. -/
theorem parsePathEdgeItem_fn (st : ParserState) (item : RawValue) :
    (match item with
      | RawValue.vSeq (_ :: d :: _) =>
        if d.isNil then none
        else
          match parseEdge st d with
          | some (some e) => some e
          | _ => none
      | _ => none) =
    (match parsePathEdgeItem st item with
      | some (some e) => some e
      | _ => (none : Option GoEdge)) := by
  rw [parsePathEdgeItem_eq]
  rcases item with _ | b | n | m | q | str | xs
  case vSeq =>
    rcases xs with _ | ⟨x, _ | ⟨d, t⟩⟩
    · rfl
    · rfl
    · by_cases hd : d.isNil
      · simp [hd]
      · simp only [Bool.not_eq_true] at hd
        simp [hd]
  all_goals rfl

/-- C9: a Node-tagged payload that is not a sequence of at least 3
elements (an Edge-tagged one of at least 5) decodes to the Go `nil`
entity rather than an error or placeholder, and the path item loops drop
such malformed entries silently, keeping exactly the successfully decoded
ones. -/
theorem C9_malformed_drop :
    (∀ st v, (∀ xs, v = .vSeq xs → xs.length < 3) → parseNode st v = some none)
    ∧ (∀ st v, (∀ xs, v = .vSeq xs → xs.length < 5) → parseEdge st v = some none)
    ∧ (∀ st items ns, parsePathNodesList st items = some ns →
        ns = items.filterMap fun item =>
          match item with
          | RawValue.vSeq (_ :: d :: _) =>
            if d.isNil then none
            else
              match parseNode st d with
              | some (some n) => some n
              | _ => none
          | _ => none)
    ∧ (∀ st items es, parsePathEdgesList st items = some es →
        es = items.filterMap fun item =>
          match item with
          | RawValue.vSeq (_ :: d :: _) =>
            if d.isNil then none
            else
              match parseEdge st d with
              | some (some e) => some e
              | _ => none
          | _ => none) := by
  refine ⟨fun st v h => parseNode_nil st v h, fun st v h => parseEdge_nil st v h, ?_, ?_⟩
  · intro st items
    induction items with
    | nil =>
      intro ns h
      rw [parsePathNodesList_nil] at h
      injection h with h
      subst h
      rfl
    | cons item rest ih =>
      intro ns h
      rw [parsePathNodesList_cons] at h
      rw [List.filterMap_cons, parsePathNodeItem_fn]
      cases hit : parsePathNodeItem st item with
      | none =>
        rw [hit] at h
        simp at h
      | some o =>
        rw [hit] at h
        cases o with
        | none => exact ih ns h
        | some n =>
          have h' : (parsePathNodesList st rest).map (fun ns => n :: ns) = some ns := h
          cases hrest : parsePathNodesList st rest with
          | none =>
            rw [hrest] at h'
            simp at h'
          | some tail =>
            rw [hrest] at h'
            injection h' with h'
            subst h'
            exact congrArg (fun l => n :: l) (ih tail hrest)
  · intro st items
    induction items with
    | nil =>
      intro es h
      rw [parsePathEdgesList_nil] at h
      injection h with h
      subst h
      rfl
    | cons item rest ih =>
      intro es h
      rw [parsePathEdgesList_cons] at h
      rw [List.filterMap_cons, parsePathEdgeItem_fn]
      cases hit : parsePathEdgeItem st item with
      | none =>
        rw [hit] at h
        simp at h
      | some o =>
        rw [hit] at h
        cases o with
        | none => exact ih es h
        | some e =>
          have h' : (parsePathEdgesList st rest).map (fun es => e :: es) = some es := h
          cases hrest : parsePathEdgesList st rest with
          | none =>
            rw [hrest] at h'
            simp at h'
          | some tail =>
            rw [hrest] at h'
            injection h' with h'
            subst h'
            exact congrArg (fun l => e :: l) (ih tail hrest)

/-- Witness for C9: a malformed (length-1) Node payload decodes to `nil`,
and a two-item path node list keeps only the well-formed item. -/
theorem C9_malformed_drop_witness :
    parseNode ⟨[], [], []⟩ (.vStr "x") = some none ∧
    parsePathNodesList ⟨[], [], []⟩
        [.vSeq [.vInt64 8, .vSeq [.vInt64 1]],
         .vSeq [.vInt64 8, .vSeq [.vInt64 1, .vNil, .vNil]]] =
      some [.mk 1 [] []] ∧
    [GoNode.mk 1 [] []] =
      List.filterMap
        (fun item =>
          match item with
          | RawValue.vSeq (_ :: d :: _) =>
            if d.isNil then none
            else
              match parseNode ⟨[], [], []⟩ d with
              | some (some n) => some n
              | _ => none
          | _ => none)
        [.vSeq [.vInt64 8, .vSeq [.vInt64 1]],
         .vSeq [.vInt64 8, .vSeq [.vInt64 1, .vNil, .vNil]]] := by
  have hlist : parsePathNodesList (⟨[], [], []⟩ : ParserState)
      [.vSeq [.vInt64 8, .vSeq [.vInt64 1]],
       .vSeq [.vInt64 8, .vSeq [.vInt64 1, .vNil, .vNil]]] = some [.mk 1 [] []] := by
    simp [parsePathNodesList, parsePathNodesListF, parsePathNodeItemF, parseNodeF,
      parseNodeBodyF, parseNodeLabelsArg, parsePropsArgF, RawValue.isNil, sizeRV, sizeRVList,
      ToInt64]
  exact ⟨C9_malformed_drop.1 _ _ (fun xs h => nomatch h), hlist,
    C9_malformed_drop.2.2.1 _ _ _ hlist⟩

/-- C10: the assembled row is keyed by resolved column name
(`header name` or `"column_<i>"`): lookups answer with the decoded value
of the highest-index column bearing that name, the key set is
duplicate-free, and it contains exactly the resolved column names — one
entry per distinct name, not per column. -/
theorem C10_row_assembly (st : ParserState) (headers : List Header) (row : List RawValue)
    (m : GoProps) (h : parseRow st row headers = some m) :
    (∀ name, mapGet m name =
      match lastMatchCell headers 0 row name with
      | some c => decodeCell st c
      | none => none)
    ∧ (mapKeys m).Nodup
    ∧ (∀ name, name ∈ mapKeys m ↔ ∃ j, j < row.length ∧ rowColumnName headers j = name) := by
  obtain ⟨h1, h2, h3⟩ := parseRowAux_charac st headers row 0 [] m h
  refine ⟨?_, h2 (by simp [mapKeys]), ?_⟩
  · intro name
    rw [h1 name]
    cases lastMatchCell headers 0 row name
    · rfl
    · rfl
  · intro name
    rw [h3 name]
    simp [mapKeys]

/-- Witness for C10 at a row with two columns of the same resolved name:
the single entry holds the higher-index column's value. -/
theorem C10_row_assembly_witness :
    parseRow ⟨[], [], []⟩
        [.vSeq [.vInt64 2, .vStr "a"], .vSeq [.vInt64 2, .vStr "b"]]
        [⟨0, "x"⟩, ⟨0, "x"⟩] =
      some [("x", GoValue.str "b")] ∧
    mapGet [("x", GoValue.str "b")] "x" = some (GoValue.str "b") ∧
    (mapKeys [("x", GoValue.str "b")]).Nodup := by
  have hrow : parseRow (⟨[], [], []⟩ : ParserState)
      [.vSeq [.vInt64 2, .vStr "a"], .vSeq [.vInt64 2, .vStr "b"]]
      [⟨0, "x"⟩, ⟨0, "x"⟩] = some [("x", GoValue.str "b")] := by
    simp [parseRow, parseRowAux, decodeCell, parseValue, parseValueF, rowColumnName,
      mapSet, sizeRV, sizeRVList, ToInt, ToString, ValueTypeNull, ValueTypeString,
      ValueTypeInteger, goParseInt64, stripSign, digitsToNat?, digitsToNatAux, List.get?]
  have h := C10_row_assembly _ _ _ _ hrow
  refine ⟨hrow, ?_, h.2.1⟩
  refine (h.1 "x").trans ?_
  simp [lastMatchCell, rowColumnName, decodeCell, parseValue, parseValueF, sizeRV,
    sizeRVList, ToInt, ToString, ValueTypeNull, ValueTypeString, ValueTypeInteger,
    List.get?]

end FalkorDBGo
